import Mathlib

/-!
# Verification of the Hanoi bus routing engine (`bus_routing.py`)

Shallow embedding of the `BusRoutingEngine` class of `src/bus_routing.py`:
graph construction from stop/route geometry (`build_graph`), the side
filter, walking-edge augmentation (`_add_walking_edges`, `_add_walk_edge`),
the two-tier path search and segment summarization (`find_shortest_path`),
and the display-label helper (`_label_route`).

Modelling conventions:
* Python floats are modelled as exact rationals (`ℚ`); the numeric literals
  (`1e-9`, `0.0003`, `120/111_000`) become the corresponding exact rationals.
* The external geometry library (shapely: `distance`, `project`,
  `interpolate`, `substring`) is abstracted into a `GeoOracle` of pure
  functions; the engine's own control flow is translated faithfully on top
  of it.  The spatial index (`sindex.intersection` over a bounding box) is a
  sound over-approximating pre-filter in the source (it returns a superset
  of the exact matches, which are then re-checked); it is modelled as the
  complete scan, which the source's subsequent exact checks reduce to.
* The networkx `DiGraph` (a dict keyed by node, edges keyed by ordered node
  pairs, attribute dicts) is modelled by association lists keyed by `Nat`
  node ids and ordered pairs; `add_node` / `add_edge` update-or-append
  exactly as networkx does.
* `nx.shortest_path` / `nx.shortest_path_length` (Dijkstra over
  non-negative weights) are modelled extensionally: some minimal-weight
  duplicate-free path when the target is reachable, `none`
  (`NetworkXNoPath`) otherwise.
-/

/-- A coordinate pair `(x, y)` = `(lon, lat)`, as stored in `pos`. -/
abbrev Coord : Type := ℚ × ℚ

/-- One row of `stops_gdf`: unique id, display name, point geometry. -/
structure Stop where
  id : Nat
  name : String
  x : ℚ
  y : ℚ
deriving DecidableEq

/-- Edge geometry attribute: shapely `substring` yields a `LineString`
(normal case) or a degenerate `Point`; `absent` models an edge-attribute
dict with no `geometry` key (handled at rendering, lines 406-412). -/
inductive EdgeGeom where
  | line (coords : List Coord)
  | point (p : Coord)
  | absent
deriving DecidableEq

/-- Edge attribute dict: `weight`, `routes` (a list the source appends route
names to, line 146), `geometry` (lines 149-150, 179). -/
structure EdgeData where
  weight : ℚ
  routes : List String
  geom : EdgeGeom
deriving DecidableEq

/-- Node attribute dict; `none` models a missing key (nodes created
implicitly by `add_edge` carry no attributes until `add_node` runs). -/
structure NodeAttrs where
  name : Option String
  pos : Option Coord
deriving DecidableEq

/-- The `nx.DiGraph`: nodes and directed edges with attributes, in
insertion order, keyed by node id resp. ordered node-id pair. -/
structure Graph where
  nodes : List (Nat × NodeAttrs)
  edges : List ((Nat × Nat) × EdgeData)
deriving DecidableEq

/-- First binding of a node id in the node list (dict lookup). -/
def findNode : List (Nat × NodeAttrs) → Nat → Option NodeAttrs
  | [], _ => none
  | (k, a) :: t, u => if k = u then some a else findNode t u

/-- First binding of an ordered pair in the edge list (dict lookup). -/
def findEdge : List ((Nat × Nat) × EdgeData) → Nat → Nat → Option EdgeData
  | [], _, _ => none
  | (k, e) :: t, u, v => if k = (u, v) then some e else findEdge t u v

def Graph.lookupNode (g : Graph) (u : Nat) : Option NodeAttrs :=
  findNode g.nodes u

def Graph.lookupEdge (g : Graph) (u v : Nat) : Option EdgeData :=
  findEdge g.edges u v

/-- `self.graph.has_edge(u, v)` (line 145, 177). -/
def Graph.hasEdge (g : Graph) (u v : Nat) : Bool :=
  (g.lookupEdge u v).isSome

def Graph.hasNode (g : Graph) (u : Nat) : Bool :=
  (g.lookupNode u).isSome

/-- Replace the attributes of the (first) binding of `u`. -/
def replaceNode : List (Nat × NodeAttrs) → Nat → NodeAttrs → List (Nat × NodeAttrs)
  | [], _, _ => []
  | (k, a) :: t, u, attrs =>
    if k = u then (k, attrs) :: t else (k, a) :: replaceNode t u attrs

/-- `graph.add_node(u, name=..., pos=...)` (lines 155-156, 169-173):
update the node's attributes in place, or append a new node. -/
def Graph.addNode (g : Graph) (u : Nat) (attrs : NodeAttrs) : Graph :=
  if g.hasNode u then ⟨replaceNode g.nodes u attrs, g.edges⟩
  else ⟨g.nodes ++ [(u, attrs)], g.edges⟩

/-- A node created implicitly by `add_edge`: present, but with no
attributes. -/
def ensureBareNode (l : List (Nat × NodeAttrs)) (u : Nat) : List (Nat × NodeAttrs) :=
  if (findNode l u).isSome then l else l ++ [(u, ⟨none, none⟩)]

/-- Replace the attributes of the (first) binding of an edge key. -/
def replaceEdge : List ((Nat × Nat) × EdgeData) → Nat → Nat → EdgeData →
    List ((Nat × Nat) × EdgeData)
  | [], _, _, _ => []
  | (k, e) :: t, u, v, ed =>
    if k = (u, v) then (k, ed) :: t else (k, e) :: replaceEdge t u v ed

/-- `graph.add_edge(u, v, weight=..., routes=..., geometry=...)`
(lines 150, 179): set the edge's attributes, creating the edge (and bare
endpoint nodes) if absent. -/
def Graph.addEdgeData (g : Graph) (u v : Nat) (ed : EdgeData) : Graph :=
  if g.hasEdge u v then ⟨g.nodes, replaceEdge g.edges u v ed⟩
  else ⟨ensureBareNode (ensureBareNode g.nodes u) v, g.edges ++ [((u, v), ed)]⟩

/-- `self.graph[u][v]['routes'].append(route_name)` (line 146). -/
def Graph.appendRouteLabel (g : Graph) (u v : Nat) (routeName : String) : Graph :=
  ⟨g.nodes,
   g.edges.map (fun p =>
     if p.1 = (u, v) then (p.1, ⟨p.2.weight, p.2.routes ++ [routeName], p.2.geom⟩) else p)⟩

/-- The empty `nx.DiGraph()`. -/
def Graph.empty : Graph := ⟨[], []⟩

-- ### Configuration constants (lines 22-23) and geometry abstraction

/-- `self.max_walk_distance_m = 120` (line 22). -/
def maxWalkDistanceM : ℚ := 120

/-- `walk_threshold_deg = self.max_walk_distance_m / 111_000` (line 187),
written in lowest terms so that the kernel can evaluate comparisons
against it (`Rat` division does not reduce definitionally);
`walkThresholdDeg_val` below checks the value against the source
expression. -/
def walkThresholdDeg : ℚ := ⟨1, 925, by decide, by decide⟩

/-- Matching tolerance `0.0003` degrees (line 106), in lowest terms. -/
def routeMatchTolerance : ℚ := ⟨3, 10000, by decide, by decide⟩

/-- Side-filter epsilon `1e-9` (lines 113, 118), in lowest terms. -/
def sideEps : ℚ := ⟨1, 1000000000, by decide, by decide⟩

/-- Abstract handle for a normalized shapely `LineString`. -/
abbrev Line : Type := Nat

/-- The shapely geometry primitives used by the engine, abstracted as pure
functions (floating-point geometry is outside the shallow embedding):
`distToLine` is `stop.distance(route_geom)` (line 106), `project` is
`route_geom.project(stop)` (lines 125, 139-140), `side` is the value of
`_compute_side(route_geom, stop)` (lines 112, 228-251, a cross product of
a local tangent with the stop offset), `subLine` is
`substring(route_geom, start_dist, end_dist)` (line 149), and `pointDist`
is `stop_geom.distance(neighbor_geom)` for two point geometries (line
205). -/
structure GeoOracle where
  distToLine : Line → Coord → ℚ
  project : Line → Coord → ℚ
  side : Line → Coord → ℚ
  subLine : Line → ℚ → ℚ → EdgeGeom
  pointDist : Coord → Coord → ℚ

-- ### Side filter (build_graph lines 111-121)

/-- `dominant_sign = 1 if pos_count >= neg_count else -1` (lines 113-117),
the counts taken over the candidates with `|side| > 1e-9`. -/
def dominantSign (cands : List (Stop × ℚ)) : ℚ :=
  let nonzero := cands.filter (fun c => decide (sideEps < |c.2|))
  if (nonzero.filter (fun c => decide (c.2 < 0))).length ≤
      (nonzero.filter (fun c => decide (0 < c.2))).length then 1 else -1

/-- Lines 113-121: among candidates with `|side| > 1e-9` pick the dominant
sign (`pos_count >= neg_count` breaks ties toward `+1`); keep only the
candidates with `side * dominant_sign > 1e-9`, unless that would leave
fewer than 2 stops, in which case all candidates are retained. -/
def sideFilter (cands : List (Stop × ℚ)) : List (Stop × ℚ) :=
  let nonzero := cands.filter (fun c => decide (sideEps < |c.2|))
  if nonzero.isEmpty then cands
  else
    let filtered := cands.filter (fun c => decide (sideEps < c.2 * dominantSign cands))
    if 2 ≤ filtered.length then filtered else cands

/-- The candidates that are nonzero-side with the dominant sign — the set
claim C5 describes as surviving the filter when it has at least 2
elements. -/
def majoritySet (cands : List (Stop × ℚ)) : List (Stop × ℚ) :=
  cands.filter (fun c => decide (sideEps < |c.2| ∧
    (if dominantSign cands = 1 then 0 < c.2 else c.2 < 0)))

-- ### Per-route processing (build_graph lines 76-156)

/-- One feature row of `routes_gdf`: id, optional `name` property, and the
normalized geometry.  `geom = none` models the lines 80-94 outcome where
the (multi-)geometry could not be reduced to a `LineString` and the route
is skipped. -/
structure RouteFeature where
  id : Nat
  name : Option String
  geom : Option Line
deriving DecidableEq

/-- `route.get('name', f"Route {route.get('id')}")` (line 96). -/
def resolveRouteName (r : RouteFeature) : String :=
  match r.name with
  | some n => n
  | none => "Route " ++ toString r.id

/-- Stable insertion into a list sorted ascending by projected position. -/
def insertByPos (c : Stop × ℚ) : List (Stop × ℚ) → List (Stop × ℚ)
  | [] => [c]
  | d :: t => if c.2 < d.2 then c :: d :: t else d :: insertByPos c t

/-- `sort_values('pos_on_line')` (line 126), ascending. -/
def sortByPos : List (Stop × ℚ) → List (Stop × ℚ)
  | [] => []
  | c :: t => insertByPos c (sortByPos t)

/-- Lines 98-126: candidate stops within tolerance of the line (the
spatial-index bounding-box pass is a sound pre-filter and is modelled as
the full scan), side-filtered, annotated with the projected position and
sorted by it.  Returns `none` when the route is skipped (`continue` at
lines 93-94 and 108-109). -/
def routeSortedStops (geo : GeoOracle) (stopsGdf : List Stop) (r : RouteFeature) :
    Option (Line × List (Stop × ℚ)) :=
  match r.geom with
  | none => none
  | some line =>
    let near := stopsGdf.filter
      (fun s => decide (geo.distToLine line (s.x, s.y) < routeMatchTolerance))
    if near.isEmpty then none
    else
      let sided := near.map (fun s => (s, geo.side line (s.x, s.y)))
      let kept := sideFilter sided
      let positioned := kept.map (fun c => (c.1, geo.project line (c.1.x, c.1.y)))
      some (line, sortByPos positioned)

/-- Lines 133-156, one loop iteration for the consecutive pair `(a, b)`:
append the route name to an existing edge's label list, or create the edge
with `weight = pos_b - pos_a` and the sub-line geometry; then refresh the
two endpoint nodes' `name`/`pos` attributes. -/
def addHop (geo : GeoOracle) (line : Line) (routeName : String) (g : Graph)
    (ab : (Stop × ℚ) × (Stop × ℚ)) : Graph :=
  let a := ab.1
  let b := ab.2
  let u := a.1.id
  let v := b.1.id
  let g1 :=
    if g.hasEdge u v then g.appendRouteLabel u v routeName
    else g.addEdgeData u v ⟨b.2 - a.2, [routeName], geo.subLine line a.2 b.2⟩
  (g1.addNode u ⟨some a.1.name, some (a.1.x, a.1.y)⟩).addNode v
    ⟨some b.1.name, some (b.1.x, b.1.y)⟩

/-- The `for i in range(len(stop_ids) - 1)` loop (lines 133-156) over the
consecutive pairs of the sorted stop list. -/
def addRouteEdges (geo : GeoOracle) (line : Line) (routeName : String)
    (sorted : List (Stop × ℚ)) (g : Graph) : Graph :=
  (sorted.zip sorted.tail).foldl (addHop geo line routeName) g

/-- `self.route_to_stops`: a Python dict keyed by route name; assignment
replaces the value of an existing key in place and appends a new key. -/
abbrev RTS : Type := List (String × List Nat)

def rtsSet (m : RTS) (k : String) (v : List Nat) : RTS :=
  if m.any (fun p => p.1 = k) then
    m.map (fun p => if p.1 = k then (k, v) else p)
  else m ++ [(k, v)]

def rtsGet (m : RTS) (k : String) : Option (List Nat) :=
  (m.find? (fun p => p.1 = k)).map (fun p => p.2)

/-- One iteration of the `for idx, route in self.routes_gdf.iterrows()`
loop (lines 76-156): skip unusable routes, record the ordered stop-id list
under the resolved route name (line 130), then add the consecutive-hop
edges. -/
def processRoute (geo : GeoOracle) (stopsGdf : List Stop) (st : Graph × RTS)
    (r : RouteFeature) : Graph × RTS :=
  match routeSortedStops geo stopsGdf r with
  | none => st
  | some (line, sorted) =>
    let routeName := resolveRouteName r
    let rts1 := rtsSet st.2 routeName (sorted.map (fun c => c.1.id))
    (addRouteEdges geo line routeName sorted st.1, rts1)

-- ### Walk linker (lines 167-215)

/-- `_ensure_node` (lines 167-173). -/
def ensureStopNode (g : Graph) (s : Stop) : Graph :=
  g.addNode s.id ⟨some s.name, some (s.x, s.y)⟩

/-- `_add_walk_edge` (lines 175-179): add a WALK edge only where no edge
(of any kind) already exists in that direction. -/
def addWalkEdge (g : Graph) (u v : Nat) (d : ℚ) (geomv : EdgeGeom) : Graph :=
  if g.hasEdge u v then g
  else g.addEdgeData u v ⟨d, ["WALK"], geomv⟩

/-- One inner-loop iteration of `_add_walking_edges` (lines 195-215) for
the positional index pair `(i, j)`, threading the graph and the
`processed_pairs` set.  The candidate query over the spatial index is a
sound over-approximation in the source and is modelled as the full scan. -/
def walkPairStep (geo : GeoOracle) (stopsGdf : List Stop)
    (st : Graph × List (Nat × Nat)) (ij : Nat × Nat) : Graph × List (Nat × Nat) :=
  if ij.1 = ij.2 then st
  else
    let key := (min ij.1 ij.2, max ij.1 ij.2)
    if key ∈ st.2 then st
    else
      match stopsGdf[ij.1]?, stopsGdf[ij.2]? with
      | some si, some sj =>
        let d := geo.pointDist (si.x, si.y) (sj.x, sj.y)
        if 0 < d ∧ d ≤ walkThresholdDeg then
          let g1 := ensureStopNode st.1 si
          let g2 := ensureStopNode g1 sj
          let wgeom := EdgeGeom.line [(si.x, si.y), (sj.x, sj.y)]
          let g3 := addWalkEdge g2 si.id sj.id d wgeom
          let g4 := addWalkEdge g3 sj.id si.id d wgeom
          (g4, key :: st.2)
        else st
      | _, _ => st

/-- `_add_walking_edges` (lines 181-215): visit every ordered positional
pair; each unordered pair within `(0, walk_threshold_deg]` gets both
directed WALK edges (where absent) exactly once. -/
def addWalkingEdges (geo : GeoOracle) (stopsGdf : List Stop) (g : Graph) : Graph :=
  let n := stopsGdf.length
  let pairs := (List.range n).flatMap (fun i => (List.range n).map (fun j => (i, j)))
  (pairs.foldl (walkPairStep geo stopsGdf) (g, [])).1

-- ### build_graph (lines 57-165)

/-- The engine inputs: `stops_gdf` and `routes_gdf` after `load_data`. -/
structure EngineInput where
  stops : List Stop
  routes : List RouteFeature
deriving DecidableEq

/-- The engine state mutated by `build_graph`. -/
structure EngineState where
  graph : Graph
  routeToStops : RTS
  isBuilt : Bool
deriving DecidableEq

/-- `build_graph` (lines 57-165): reset the graph and the route-to-stops
map (lines 66-68), process every route, then add the walking edges and
mark the engine built.  The previous state is discarded by the reset. -/
def buildGraph (geo : GeoOracle) (inp : EngineInput) (prev : EngineState) : EngineState :=
  let st0 : Graph × RTS := (Graph.empty, [])
  let st1 := inp.routes.foldl (processRoute geo inp.stops) st0
  let g2 := addWalkingEdges geo inp.stops st1.1
  ⟨g2, st1.2, true⟩

-- ### Name resolution (find_shortest_path lines 258-276)

/-- Python's `needle in hay` substring test on code-point lists. -/
def listHasInfixChars : List Char → List Char → Bool
  | hay, needle =>
    needle.isPrefixOf hay ||
      match hay with
      | [] => false
      | _ :: t => listHasInfixChars t needle

/-- `query.lower() in node_name.lower()` (lines 263-271), code-point-wise
lowering. -/
def nameMatches (nodeName query : String) : Bool :=
  listHasInfixChars (nodeName.toList.map Char.toLower) (query.toList.map Char.toLower)

/-- Lines 266-271: all graph nodes whose `name` attribute (defaulted to
the empty string) contains the query case-insensitively, in node order. -/
def resolveNodes (g : Graph) (query : String) : List Nat :=
  (g.nodes.filter (fun p => nameMatches (p.2.name.getD "") query)).map (fun p => p.1)

-- ### Direct-ride search (lines 278-291)

/-- First index of `a` in `l` (Python `list.index`; total here, only used
under the membership guard of line 284). -/
def idxOfNat (l : List Nat) (a : Nat) : Nat :=
  match l with
  | [] => 0
  | b :: t => if b = a then 0 else idxOfNat t a + 1

/-- Lines 284-288 for one `(s, e, route)` triple: if both candidates are
in the route's recorded stop list with `index(s) < index(e)`, the
contiguous slice `stops[idx_s : idx_e + 1]`. -/
def hopCandidate (s e : Nat) (r : String × List Nat) : Option (List Nat) :=
  if s ∈ r.2 ∧ e ∈ r.2 then
    let a := idxOfNat r.2 s
    let b := idxOfNat r.2 e
    if a < b then some ((r.2.drop a).take (b + 1 - a)) else none
  else none

/-- Lines 289-291: keep the first strictly shortest candidate seen. -/
def drStep (acc : Option (List Nat)) (p : List Nat) : Option (List Nat) :=
  match acc with
  | none => some p
  | some q => if p.length < q.length then some p else acc

/-- Lines 279-291: the triple loop over start candidates, end candidates
(skipping `s == e`) and `route_to_stops.items()`. -/
def directRide (rts : RTS) (starts ends : List Nat) : Option (List Nat) :=
  starts.foldl (fun acc s =>
    ends.foldl (fun acc e =>
      if s = e then acc
      else rts.foldl (fun acc r =>
        match hopCandidate s e r with
        | some p => drStep acc p
        | none => acc) acc) acc) none

-- ### Weighted fallback (lines 294-313) and the nx.shortest_path model

/-- Direct successors of `u` in edge-insertion order. -/
def successors (g : Graph) (u : Nat) : List Nat :=
  (g.edges.filter (fun p => p.1.1 = u)).map (fun p => p.1.2)

/-- All duplicate-free edge-paths from `u` to `tgt` whose non-initial
nodes are drawn from `allowed`; `fuel` bounds the recursion depth
structurally.  Each recursive step removes one element of `allowed`, so
with `fuel = allowed.length` the bound is never the limiting factor. -/
def simplePathsAux (g : Graph) (tgt : Nat) : Nat → Nat → List Nat → List (List Nat)
  | fuel, u, allowed =>
    if u = tgt then [[u]]
    else
      match fuel with
      | 0 => []
      | fuel + 1 =>
        (successors g u).flatMap (fun v =>
          if v ∈ allowed then
            (simplePathsAux g tgt fuel v (allowed.erase v)).map (fun p => u :: p)
          else [])

/-- All duplicate-free paths from `s` to `e` in `g`. -/
def simplePaths (g : Graph) (s e : Nat) : List (List Nat) :=
  let allowed := (g.nodes.map (fun p => p.1)).erase s
  simplePathsAux g e allowed.length s allowed

/-- Total weight of a node path. -/
def pathWeight (g : Graph) : List Nat → ℚ
  | u :: v :: rest => (match g.lookupEdge u v with
      | some ed => ed.weight
      | none => 0) + pathWeight g (v :: rest)
  | _ => 0

/-- First minimal-weight element. -/
def pickMinWeight (g : Graph) (acc : Option (List Nat × ℚ)) :
    List (List Nat) → Option (List Nat × ℚ)
  | [] => acc
  | p :: t =>
    let w := pathWeight g p
    match acc with
    | none => pickMinWeight g (some (p, w)) t
    | some (q, wq) =>
      if w < wq then pickMinWeight g (some (p, w)) t else pickMinWeight g (some (q, wq)) t

/-- Extensional model of `nx.shortest_path(..., weight='weight')` together
with `nx.shortest_path_length` (lines 302-305): a minimal-weight
duplicate-free path and its weight when `e` is reachable from `s`, `none`
(i.e. `NetworkXNoPath`) otherwise.  On the non-negative weights produced
by the builder this is the Dijkstra result; the tie-break among
equal-weight paths is not observed by any caller. -/
def nxShortestPath (g : Graph) (s e : Nat) : Option (List Nat × ℚ) :=
  pickMinWeight g none (simplePaths g s e)

/-- Lines 294-313: run the per-pair search for every `(s, e)` candidate
pair (skipping `s == e`), keeping the globally minimal length
(`path_len < shortest_len` with `shortest_len` starting at infinity,
modelled by `none`). -/
def fallbackSearch (sp : Nat → Nat → Option (List Nat × ℚ)) (starts ends : List Nat) :
    Option (List Nat) :=
  (starts.foldl
    (fun (acc : Option (List Nat) × Option ℚ) s =>
      ends.foldl
        (fun (acc : Option (List Nat) × Option ℚ) e =>
          if s = e then acc
          else
            match sp s e with
            | none => acc
            | some (p, len) =>
              match acc.2 with
              | none => (some p, some len)
              | some best => if len < best then (some p, some len) else acc)
        acc)
    (none, none)).1

-- ### Segment summarization and rendering (lines 315-414)

/-- Code-point lexicographic order on strings (Python `<` on `str`). -/
def charListLt : List Char → List Char → Bool
  | [], [] => false
  | [], _ :: _ => true
  | _ :: _, [] => false
  | a :: as, b :: bs => if a < b then true else if b < a then false else charListLt as bs

def strLtB (a b : String) : Bool := charListLt a.toList b.toList

def insertStr (x : String) : List String → List String
  | [] => [x]
  | y :: t => if strLtB y x then y :: insertStr x t else x :: y :: t

/-- Python `sorted` on a collection of route-name strings, ascending. -/
def sortStrings : List String → List String
  | [] => []
  | x :: t => insertStr x (sortStrings t)

/-- `_label_route` (lines 217-226): lowest non-WALK route name if any,
else the walk marker; `Unknown` for an empty label set. -/
def labelRoute (routesSet : List String) : String :=
  if routesSet.isEmpty then "Unknown"
  else
    match sortStrings (routesSet.filter (fun r => decide (r ≠ "WALK"))) with
    | [] => "🚶 Đi bộ"
    | b :: _ => b

/-- One emitted segment dict (lines 357-367 and 382-392).  These are
exactly the keys the source writes; in particular there is no geometry
field. -/
structure Segment where
  start_stop : String
  end_stop : String
  start_lat : ℚ
  start_lon : ℚ
  end_lat : ℚ
  end_lon : ℚ
  route : String
  num_stops : Nat
  stops : List Nat
deriving DecidableEq

/-- `set(edge_data.get('routes', []))` (lines 331, 340); a missing edge
would fault in the source and is never produced by the searches. -/
def edgeRoutesD (g : Graph) (u v : Nat) : List String :=
  match g.lookupEdge u v with
  | some ed => ed.routes
  | none => []

/-- Close a segment (lines 351-367 and 376-392): label, endpoint names and
positions, hop count `len(stops) - 1`, and the stop-id list. -/
def mkSegment (g : Graph) (segStart endNode : Nat) (curRoutes : List String)
    (curStops : List Nat) : Segment :=
  let sd := (g.lookupNode segStart).getD ⟨none, none⟩
  let ed := (g.lookupNode endNode).getD ⟨none, none⟩
  let sp := sd.pos.getD (0, 0)
  let ep := ed.pos.getD (0, 0)
  { start_stop := sd.name.getD "Unknown"
    end_stop := ed.name.getD "Unknown"
    start_lat := sp.2
    start_lon := sp.1
    end_lat := ep.2
    end_lon := ep.1
    route := labelRoute curRoutes
    num_stops := curStops.length - 1
    stops := curStops }

/-- The merge loop (lines 336-372) plus the final flush (lines 374-392):
`u` is the current node `path_ids[i]`, `rest` the remaining nodes; on a
nonempty label intersection the active set narrows and the segment grows,
on an empty one the segment is closed and a new one starts. -/
def summarizeLoop (g : Graph) (acc : List Segment) (segStart : Nat)
    (curRoutes : List String) (curStops : List Nat) (u : Nat) :
    List Nat → List Segment
  | [] => acc ++ [mkSegment g segStart u curRoutes curStops]
  | v :: rest =>
    let nextRoutes := edgeRoutesD g u v
    let inter := curRoutes.filter (fun r => decide (r ∈ nextRoutes))
    if inter.isEmpty then
      summarizeLoop g (acc ++ [mkSegment g segStart u curRoutes curStops]) u nextRoutes
        [u, v] v rest
    else
      summarizeLoop g acc segStart inter (curStops ++ [v]) v rest

/-- Lines 326-392: group the node path into ride segments; paths with at
most one node produce no segments. -/
def summarize (g : Graph) : List Nat → List Segment
  | u :: v :: rest => summarizeLoop g [] u (edgeRoutesD g u v) [u, v] v rest
  | _ => []

/-- One polyline contribution (lines 395-412): a LineString geometry
contributes its coordinates flipped to `[lat, lon]`; a non-LineString
geometry contributes nothing; an edge without a geometry attribute
contributes the two endpoint positions. -/
def polyStep (g : Graph) (u v : Nat) : List Coord :=
  match (g.lookupEdge u v).map (fun ed => ed.geom) with
  | some (EdgeGeom.line coords) => coords.map (fun c => (c.2, c.1))
  | some (EdgeGeom.point _) => []
  | _ =>
    let up := ((g.lookupNode u).getD ⟨none, none⟩).pos.getD (0, 0)
    let vp := ((g.lookupNode v).getD ⟨none, none⟩).pos.getD (0, 0)
    [(up.2, up.1), (vp.2, vp.1)]

/-- `full_geometry_coords` (lines 324, 395-412). -/
def buildPolyline (g : Graph) (pids : List Nat) : List Coord :=
  (pids.zip pids.tail).flatMap (fun p => polyStep g p.1 p.2)

-- ### find_shortest_path (lines 253-417)

/-- The typed result of `find_shortest_path`: the source returns
`(None, None, message)` triples whose messages distinguish a start-query
miss (line 274), an end-query miss (line 276) and the no-route case
(line 317), or `(segments, coords, None)` on success (line 414). -/
inductive FSPResult where
  | errNoMatchStart (query : String)
  | errNoMatchEnd (query : String)
  | errNoPath
  | ok (segments : List Segment) (polyline : List Coord)
deriving DecidableEq

/-- Lines 319-414: build the result for a found path. -/
def renderResult (g : Graph) (pids : List Nat) : FSPResult :=
  .ok (summarize g pids) (buildPolyline g pids)

/-- `find_shortest_path` (lines 253-417), parametrized by the
`nx.shortest_path` implementation so that consultation of the weighted
fallback is observable.  The engine is assumed built (lines 255-256 build
lazily before this body runs). -/
def findShortestPathWith (sp : Nat → Nat → Option (List Nat × ℚ)) (g : Graph)
    (rts : RTS) (startName endName : String) : FSPResult :=
  let starts := resolveNodes g startName
  let ends := resolveNodes g endName
  if starts.isEmpty then .errNoMatchStart startName
  else if ends.isEmpty then .errNoMatchEnd endName
  else
    let pids := match directRide rts starts ends with
      | some p => some p
      | none => fallbackSearch sp starts ends
    match pids with
    | none => .errNoPath
    | some p => renderResult g p

/-- `find_shortest_path` with the modelled library search. -/
def findShortestPath (g : Graph) (rts : RTS) (startName endName : String) : FSPResult :=
  findShortestPathWith (nxShortestPath g) g rts startName endName

/-- The flattened list of direct-ride candidate slices, in the iteration
order of the triple loop at lines 280-291. -/
def candList (rts : RTS) (starts ends : List Nat) : List (List Nat) :=
  starts.flatMap (fun s => ends.flatMap (fun e =>
    if s = e then [] else rts.filterMap (hopCandidate s e)))

/-- A qualifying direct ride (claim C1's hypothesis): some start candidate
and end candidate both lie on a recorded route stop list with the start
strictly before the end, and `p` is the contiguous slice between them. -/
def Qualifies (rts : RTS) (starts ends : List Nat) (p : List Nat) : Prop :=
  ∃ s ∈ starts, ∃ e ∈ ends, s ≠ e ∧ ∃ r ∈ rts, hopCandidate s e r = some p

/-- A (possibly repeating) directed edge-walk from `s` to `e` in `g`: the
meaning of "a weighted path connects `s` to `e`" in claim C6. -/
inductive IsPathFrom (g : Graph) : Nat → Nat → List Nat → Prop
  | single (u : Nat) : IsPathFrom g u u [u]
  | cons (u v e : Nat) (p : List Nat) (huv : g.hasEdge u v = true)
      (hp : IsPathFrom g v e p) : IsPathFrom g u e (u :: p)

/-- The graph state after both directed walk edges of a qualifying stop
pair have been attempted (lines 210-215): ensure both nodes, then
`_add_walk_edge` in each direction with the computed distance and the
straight-segment geometry. -/
def walkProcessed (geo : GeoOracle) (g : Graph) (si sj : Stop) : Graph :=
  addWalkEdge
    (addWalkEdge (ensureStopNode (ensureStopNode g si) sj)
      si.id sj.id (geo.pointDist (si.x, si.y) (sj.x, sj.y))
      (EdgeGeom.line [(si.x, si.y), (sj.x, sj.y)]))
    sj.id si.id (geo.pointDist (si.x, si.y) (sj.x, sj.y))
    (EdgeGeom.line [(si.x, si.y), (sj.x, sj.y)])

/-- One direction of the walk-linker postcondition for a handled stop
pair: a pre-existing edge keeps its attributes untouched, and an absent
one has been filled with a WALK edge whose weight is the computed
distance. -/
def dirDone (geo : GeoOracle) (g0 g : Graph) (a b : Stop) : Prop :=
  match g0.lookupEdge a.id b.id with
  | some e => g.lookupEdge a.id b.id = some e
  | none => ∃ ed, g.lookupEdge a.id b.id = some ed ∧ ed.routes = ["WALK"] ∧
      ed.weight = geo.pointDist (a.x, a.y) (b.x, b.y)

/-- Induction invariant of the walk-linker fold: pre-existing edges are
preserved, every processed pair is qualifying and fully handled, and the
edges between unprocessed stop pairs are untouched. -/
def walkInv (geo : GeoOracle) (stopsGdf : List Stop) (g0 : Graph)
    (st : Graph × List (Nat × Nat)) : Prop :=
  (∀ u v ed, g0.lookupEdge u v = some ed → st.1.lookupEdge u v = some ed)
  ∧ (∀ key ∈ st.2, ∃ i j si sj, key = (min i j, max i j) ∧ i ≠ j ∧
      stopsGdf[i]? = some si ∧ stopsGdf[j]? = some sj ∧
      0 < geo.pointDist (si.x, si.y) (sj.x, sj.y) ∧
      geo.pointDist (si.x, si.y) (sj.x, sj.y) ≤ walkThresholdDeg ∧
      dirDone geo g0 st.1 si sj ∧ dirDone geo g0 st.1 sj si)
  ∧ (∀ i j si sj, i ≠ j → stopsGdf[i]? = some si → stopsGdf[j]? = some sj →
      (min i j, max i j) ∉ st.2 →
      st.1.lookupEdge si.id sj.id = g0.lookupEdge si.id sj.id)

-- ### Concrete instances used by the witnesses

/-- Candidate list for the side-filter witness: two positive-side stops,
one negative-side stop, one zero-side stop. -/
def c5cands : List (Stop × ℚ) :=
  [(⟨1, "a", 0, 0⟩, 1), (⟨2, "b", 0, 0⟩, 1), (⟨3, "c", 0, 0⟩, -1), (⟨4, "d", 0, 0⟩, 0)]

/-- Four stops on a chain with edge labels `{R1,R2}`, `{R2}`, `{R3}`. -/
def gC3 : Graph :=
  ⟨[(1, ⟨some "a", some (0, 0)⟩), (2, ⟨some "b", some (1, 0)⟩),
    (3, ⟨some "c", some (2, 0)⟩), (4, ⟨some "d", some (3, 0)⟩)],
   [((1, 2), ⟨1, ["R1", "R2"], .line [(0, 0), (1, 0)]⟩),
    ((2, 3), ⟨1, ["R2"], .line [(1, 0), (2, 0)]⟩),
    ((3, 4), ⟨1, ["R3"], .line [(2, 0), (3, 0)]⟩)]⟩

/-- A single-node graph whose one stop is named `x`. -/
def gC9 : Graph := ⟨[(7, ⟨some "x", some (0, 0)⟩)], []⟩

/-- A trivial geometry oracle for the concrete witnesses. -/
def geoW : GeoOracle :=
  ⟨fun _ _ => 0, fun _ c => c.1, fun _ _ => 0, fun _ _ _ => EdgeGeom.absent,
   fun _ _ => 1⟩

/-- A two-node graph with one bus edge, used by the C4 witness. -/
def gC4 : Graph :=
  ⟨[(1, ⟨some "a", some (0, 0)⟩), (2, ⟨some "b", some (1, 0)⟩)],
   [((1, 2), ⟨5, ["R1"], EdgeGeom.absent⟩)]⟩

/-- A two-node graph with no edges at all. -/
def gC6 : Graph :=
  ⟨[(1, ⟨some "a", some (0, 0)⟩), (2, ⟨some "b", some (1, 0)⟩)], []⟩

/-- Two stops exactly at the walking threshold apart (via `geoB`). -/
def sA : Stop := ⟨1, "a", 0, 0⟩

def sB : Stop := ⟨2, "b", 0, 1⟩

def stopsB : List Stop := [sA, sB]

/-- Oracle whose point distance is constantly the walking threshold. -/
def geoB : GeoOracle :=
  ⟨fun _ _ => 0, fun _ c => c.1, fun _ _ => 0, fun _ _ _ => EdgeGeom.absent,
   fun _ _ => walkThresholdDeg⟩

/-- The ordered stop-id list a route feature records at line 130, when it
is processed at all (`none` when the route is skipped). -/
def processedStopIds (geo : GeoOracle) (stopsGdf : List Stop) (r : RouteFeature) :
    Option (List Nat) :=
  (routeSortedStops geo stopsGdf r).map (fun x => x.2.map (fun c => c.1.id))

/-- Input with two route features resolving to the same name `R`. -/
def geoC10 : GeoOracle :=
  ⟨fun _ _ => 0, fun _ c => c.1, fun _ _ => 0, fun _ _ _ => EdgeGeom.absent,
   fun _ _ => 1⟩

def inpC10 : EngineInput :=
  ⟨[⟨1, "a", 0, 0⟩, ⟨2, "b", 1, 0⟩],
   [⟨10, some "R", some 0⟩, ⟨11, some "R", some 0⟩]⟩

/-- The spec-described geometry concatenation (claim C7): for each
traversed edge, its LineString coordinates flipped to `[lat, lon]`,
concatenated along the whole path.  This definition follows the claim
wording and is compared against the source rendering. -/
def specConcatGeometry (g : Graph) (pids : List Nat) : List Coord :=
  (pids.zip pids.tail).flatMap (fun p =>
    match g.lookupEdge p.1 p.2 with
    | some ed =>
      match ed.geom with
      | EdgeGeom.line coords => coords.map (fun c => (c.2, c.1))
      | _ => []
    | none => [])

/-- Chain graph for the C7 counterexample. -/
def g7a : Graph :=
  ⟨[(1, ⟨some "aa", some (0, 0)⟩), (2, ⟨some "bb", some (1, 0)⟩),
    (3, ⟨some "cc", some (2, 0)⟩)],
   [((1, 2), ⟨1, ["R1"], EdgeGeom.line [(0, 0), (1, 0)]⟩),
    ((2, 3), ⟨1, ["R1"], EdgeGeom.line [(1, 0), (2, 0)]⟩)]⟩

/-- Same graph as `g7a` except the second edge has a different geometry
(an extra bend); segments do not record geometry, so the emitted segment
lists coincide while the polylines differ. -/
def g7b : Graph :=
  ⟨[(1, ⟨some "aa", some (0, 0)⟩), (2, ⟨some "bb", some (1, 0)⟩),
    (3, ⟨some "cc", some (2, 0)⟩)],
   [((1, 2), ⟨1, ["R1"], EdgeGeom.line [(0, 0), (1, 0)]⟩),
    ((2, 3), ⟨1, ["R1"], EdgeGeom.line [(1, 0), (5, 7), (2, 0)]⟩)]⟩

-- ### Lemma development

-- ### Basic lookup lemmas for the graph operations

theorem findEdge_append (u v : Nat) :
    ∀ l l' : List ((Nat × Nat) × EdgeData),
      findEdge (l ++ l') u v = ((findEdge l u v).or (findEdge l' u v))
  | [], _ => by simp [findEdge]
  | (k, e) :: t, l' => by
    by_cases hk : k = (u, v) <;>
      simp [findEdge, hk, findEdge_append u v t l']

theorem findEdge_replaceEdge (u v : Nat) (ed : EdgeData) (w x : Nat)
    (l : List ((Nat × Nat) × EdgeData)) :
    findEdge (replaceEdge l u v ed) w x =
      if (u, v) = (w, x) ∧ (findEdge l u v).isSome then some ed else findEdge l w x := by
  induction l with
  | nil => simp [replaceEdge, findEdge]
  | cons p t ih =>
    obtain ⟨k, e⟩ := p
    by_cases hk : k = (u, v)
    · have hfind : findEdge ((k, e) :: t) u v = some e := by rw [findEdge, if_pos hk]
      by_cases hw : (u, v) = (w, x)
      · rw [replaceEdge, if_pos hk, findEdge, if_pos (hk.trans hw),
          if_pos ⟨hw, by rw [hfind]; rfl⟩]
      · have hkw : ¬ k = (w, x) := fun h => hw (hk.symm.trans h)
        rw [replaceEdge, if_pos hk, findEdge, if_neg hkw,
          if_neg (fun hc => hw hc.1), findEdge, if_neg hkw]
    · by_cases hkw : k = (w, x)
      · rw [replaceEdge, if_neg hk, findEdge, if_pos hkw,
          if_neg (fun hc => hk (hkw.trans hc.1.symm)), findEdge, if_pos hkw]
      · rw [replaceEdge, if_neg hk, findEdge, if_neg hkw, ih]
        have h1 : findEdge ((k, e) :: t) u v = findEdge t u v := by
          rw [findEdge, if_neg hk]
        have h2 : findEdge ((k, e) :: t) w x = findEdge t w x := by
          rw [findEdge, if_neg hkw]
        rw [h1, h2]

/-- `addNode` does not touch edges. -/
theorem lookupEdge_addNode (g : Graph) (u : Nat) (attrs : NodeAttrs) (w x : Nat) :
    (g.addNode u attrs).lookupEdge w x = g.lookupEdge w x := by
  unfold Graph.addNode
  by_cases h : g.hasNode u <;> simp [h, Graph.lookupEdge]

/-- `lookupEdge` after `addEdgeData`: the target key gets the new
attributes, every other key is untouched. -/
theorem lookupEdge_addEdgeData (g : Graph) (u v : Nat) (ed : EdgeData) (w x : Nat) :
    (g.addEdgeData u v ed).lookupEdge w x =
      if (u, v) = (w, x) then some ed else g.lookupEdge w x := by
  unfold Graph.addEdgeData
  by_cases h : g.hasEdge u v
  · have hs : (findEdge g.edges u v).isSome := h
    simp only [h, if_true, Graph.lookupEdge]
    rw [findEdge_replaceEdge]
    by_cases hw : (u, v) = (w, x) <;> simp [hw, hs]
  · have hn : findEdge g.edges u v = none := by
      unfold Graph.hasEdge Graph.lookupEdge at h
      exact Option.not_isSome_iff_eq_none.mp h
    rw [if_neg h]
    show findEdge (g.edges ++ [((u, v), ed)]) w x = _
    rw [findEdge_append]
    by_cases hw : (u, v) = (w, x)
    · injection hw with h1 h2
      subst h1; subst h2
      rw [hn, if_pos rfl]
      rw [findEdge, if_pos rfl]
      rfl
    · have hsingle : findEdge [((u, v), ed)] w x = none := by
        rw [findEdge, if_neg hw]
        rfl
      rw [hsingle, if_neg hw]
      show (g.lookupEdge w x).or none = g.lookupEdge w x
      cases g.lookupEdge w x <;> rfl

theorem findEdge_mapAppendLabel (u v : Nat) (r : String) (w x : Nat)
    (l : List ((Nat × Nat) × EdgeData)) :
    findEdge (l.map (fun p =>
        if p.1 = (u, v) then
          (p.1, ⟨p.2.weight, p.2.routes ++ [r], p.2.geom⟩) else p)) w x =
      if (u, v) = (w, x) then
        (findEdge l u v).map (fun ed => ⟨ed.weight, ed.routes ++ [r], ed.geom⟩)
      else findEdge l w x := by
  induction l with
  | nil =>
    by_cases hw : (u, v) = (w, x) <;> simp [findEdge, hw]
  | cons p t ih =>
    obtain ⟨k, e⟩ := p
    rw [List.map_cons]
    by_cases hk : k = (u, v)
    · have hhead : (if (k, e).1 = (u, v) then
          ((k, e).1, ⟨(k, e).2.weight, (k, e).2.routes ++ [r], (k, e).2.geom⟩) else (k, e)) =
          (k, (⟨e.weight, e.routes ++ [r], e.geom⟩ : EdgeData)) := by
        rw [if_pos hk]
      rw [hhead]
      have hfind : findEdge ((k, e) :: t) u v = some e := by rw [findEdge, if_pos hk]
      by_cases hw : (u, v) = (w, x)
      · rw [findEdge, if_pos (hk.trans hw), if_pos hw, hfind]
        rfl
      · have hkw : ¬ k = (w, x) := fun h => hw (hk.symm.trans h)
        rw [findEdge, if_neg hkw, if_neg hw, findEdge, if_neg hkw, ih, if_neg hw]
    · have hhead : (if (k, e).1 = (u, v) then
          ((k, e).1, ⟨(k, e).2.weight, (k, e).2.routes ++ [r], (k, e).2.geom⟩) else (k, e)) =
          (k, e) := by
        rw [if_neg hk]
      rw [hhead]
      have htail : findEdge ((k, e) :: t) u v = findEdge t u v := by
        rw [findEdge, if_neg hk]
      by_cases hkw : k = (w, x)
      · rw [findEdge, if_pos hkw, if_neg (fun hc => hk (hkw.trans hc.symm)),
          findEdge, if_pos hkw]
      · rw [findEdge, if_neg hkw, ih, htail]
        by_cases hw : (u, v) = (w, x)
        · rw [if_pos hw, if_pos hw]
        · rw [if_neg hw, if_neg hw, findEdge, if_neg hkw]

/-- `lookupEdge` after `appendRouteLabel`: the target key (if present) gets
the route name appended; every other key is untouched. -/
theorem lookupEdge_appendRouteLabel (g : Graph) (u v : Nat) (r : String) (w x : Nat) :
    (g.appendRouteLabel u v r).lookupEdge w x =
      if (u, v) = (w, x) then
        (g.lookupEdge u v).map (fun ed => ⟨ed.weight, ed.routes ++ [r], ed.geom⟩)
      else g.lookupEdge w x := by
  unfold Graph.appendRouteLabel Graph.lookupEdge
  exact findEdge_mapAppendLabel u v r w x g.edges

theorem walkThresholdDeg_val : walkThresholdDeg = maxWalkDistanceM / 111000 := by
  rw [walkThresholdDeg, maxWalkDistanceM, Rat.mk'_eq_divInt, Rat.divInt_eq_div]
  norm_num

theorem routeMatchTolerance_val : routeMatchTolerance = 3 / 10000 := by
  rw [routeMatchTolerance, Rat.mk'_eq_divInt, Rat.divInt_eq_div]
  norm_num

theorem sideEps_val : sideEps = 1 / 1000000000 := by
  rw [sideEps, Rat.mk'_eq_divInt, Rat.divInt_eq_div]
  norm_num

-- ### Helper lemmas for the side filter

theorem sideEps_pos : (0 : ℚ) < sideEps := by decide

/-- Pointwise form of the "same sign as the dominant sign" test used at
line 118: multiplying by the dominant sign `±1` and comparing with the
epsilon is the same as being nonzero-side with the dominant sign. -/
theorem side_mul_dominant_iff (s : ℚ) (dominant : ℚ)
    (hd : dominant = 1 ∨ dominant = -1) :
    (sideEps < s * dominant) ↔
      (sideEps < |s| ∧ (if dominant = 1 then 0 < s else s < 0)) := by
  rcases hd with hd | hd
  · subst hd
    rw [mul_one, if_pos rfl]
    constructor
    · intro h
      have hpos : 0 < s := lt_trans sideEps_pos h
      rw [abs_of_pos hpos]
      exact ⟨h, hpos⟩
    · rintro ⟨h, hpos⟩
      rwa [abs_of_pos hpos] at h
  · subst hd
    have hne : (-1 : ℚ) ≠ 1 := by norm_num
    rw [if_neg hne, mul_neg_one]
    constructor
    · intro h
      have hneg : s < 0 := by linarith [sideEps_pos]
      rw [abs_of_neg hneg]
      exact ⟨h, hneg⟩
    · rintro ⟨h, hneg⟩
      rwa [abs_of_neg hneg] at h

theorem dominantSign_cases (cands : List (Stop × ℚ)) :
    dominantSign cands = 1 ∨ dominantSign cands = -1 := by
  unfold dominantSign
  simp only
  split_ifs
  · left; rfl
  · right; rfl

theorem sideFilter_eq_of_isEmpty (cands : List (Stop × ℚ))
    (h : (cands.filter (fun c => decide (sideEps < |c.2|))).isEmpty) :
    sideFilter cands = cands := by
  unfold sideFilter
  rw [if_pos h]

theorem sideFilter_eq_of_not_isEmpty (cands : List (Stop × ℚ))
    (h : ¬ (cands.filter (fun c => decide (sideEps < |c.2|))).isEmpty = true) :
    sideFilter cands =
      (if 2 ≤ (cands.filter
          (fun c => decide (sideEps < c.2 * dominantSign cands))).length
       then cands.filter (fun c => decide (sideEps < c.2 * dominantSign cands))
       else cands) := by
  unfold sideFilter
  rw [if_neg h]

-- ### Claim theorems (first batch)

/-- Claim C8: `build_graph` resets the graph, the route-to-stops map and
the built flag before reconstructing them (lines 66-68), so it is a pure
function of the loaded stops and routes: running it twice in succession
yields a state (graph node set, edge set, per-edge label lists, and
route-to-stops map) identical to a single run. -/
theorem build_graph_idempotent (geo : GeoOracle) (inp : EngineInput)
    (prev : EngineState) :
    buildGraph geo inp (buildGraph geo inp prev) = buildGraph geo inp prev := rfl

/-- Claim C5: after side values are computed, let the dominant sign be
positive when the nonzero-side positives are at least as many as the
negatives (line 117).  If at least 2 candidates are nonzero-side with the
dominant sign, exactly those survive the filter; otherwise all candidates
(zero-side and minority-sign ones included) are retained; hence a route
with at least 2 candidates never drops below 2 usable stops. -/
theorem side_filter_majority_policy (cands : List (Stop × ℚ)) :
    (2 ≤ (majoritySet cands).length → sideFilter cands = majoritySet cands)
    ∧ ((majoritySet cands).length < 2 → sideFilter cands = cands)
    ∧ (2 ≤ cands.length → 2 ≤ (sideFilter cands).length) := by
  have hfil : cands.filter
        (fun c => decide (sideEps < c.2 * dominantSign cands)) = majoritySet cands := by
    apply List.filter_congr
    intro c _
    rw [decide_eq_decide]
    exact side_mul_dominant_iff c.2 (dominantSign cands) (dominantSign_cases cands)
  by_cases hnz : (cands.filter (fun c => decide (sideEps < |c.2|))).isEmpty
  · have hms : majoritySet cands = [] := by
      rw [List.isEmpty_iff] at hnz
      rw [majoritySet, List.filter_eq_nil_iff]
      intro c hc
      rw [List.filter_eq_nil_iff] at hnz
      simp only [decide_eq_true_eq]
      rintro ⟨habs, _⟩
      exact absurd (by simpa using habs) (by simpa using hnz c hc)
    refine ⟨?_, ?_, ?_⟩
    · intro h2
      rw [hms] at h2
      exact absurd h2 (by simp)
    · intro _
      rw [sideFilter_eq_of_isEmpty cands hnz]
    · intro h2
      rw [sideFilter_eq_of_isEmpty cands hnz]
      exact h2
  · have heq : sideFilter cands =
        (if 2 ≤ (majoritySet cands).length then majoritySet cands else cands) := by
      rw [sideFilter_eq_of_not_isEmpty cands hnz, hfil]
    refine ⟨?_, ?_, ?_⟩
    · intro h2
      rw [heq, if_pos h2]
    · intro h2
      rw [heq, if_neg (by omega)]
    · intro h2
      rw [heq]
      by_cases hc : 2 ≤ (majoritySet cands).length
      · rw [if_pos hc]; exact hc
      · rw [if_neg hc]; exact h2

/-- Witness for C5: on the concrete candidate list (sides `1, 1, -1, 0`)
the dominant sign is positive and exactly the two positive-side
candidates survive. -/
theorem side_filter_majority_policy_witness :
    sideFilter c5cands = [(⟨1, "a", 0, 0⟩, 1), (⟨2, "b", 0, 0⟩, 1)] :=
  ((side_filter_majority_policy c5cands).1 (by decide)).trans (by decide)

/-- Claim C3: a node path whose consecutive edges carry the label sets
`{R1,R2}`, `{R2}`, `{R3}` summarizes to exactly two segments: the first
labeled `R2` (the narrowed intersection) spanning 2 hops, the second
labeled `R3` spanning 1 hop. -/
theorem segment_merge_narrowing (g : Graph) (a b c d : Nat) (r1 r2 r3 : String)
    (w1 w2 w3 : ℚ) (ge1 ge2 ge3 : EdgeGeom)
    (hab : g.lookupEdge a b = some ⟨w1, [r1, r2], ge1⟩)
    (hbc : g.lookupEdge b c = some ⟨w2, [r2], ge2⟩)
    (hcd : g.lookupEdge c d = some ⟨w3, [r3], ge3⟩)
    (h12 : r1 ≠ r2) (h23 : r2 ≠ r3) (hw2 : r2 ≠ "WALK") (hw3 : r3 ≠ "WALK") :
    ∃ s1 s2, summarize g [a, b, c, d] = [s1, s2] ∧
      s1.route = r2 ∧ s1.num_stops = 2 ∧ s1.stops = [a, b, c] ∧
      s2.route = r3 ∧ s2.num_stops = 1 ∧ s2.stops = [c, d] := by
  have e1 : edgeRoutesD g a b = [r1, r2] := by rw [edgeRoutesD, hab]
  have e2 : edgeRoutesD g b c = [r2] := by rw [edgeRoutesD, hbc]
  have e3 : edgeRoutesD g c d = [r3] := by rw [edgeRoutesD, hcd]
  have hint1 : List.filter (fun r => decide (r ∈ [r2])) [r1, r2] = [r2] := by
    simp [List.filter, h12]
  have hint2 : List.filter (fun r => decide (r ∈ [r3])) [r2] = [] := by
    simp [List.filter, h23]
  refine ⟨mkSegment g a c [r2] [a, b, c], mkSegment g c d [r3] [c, d], ?_, ?_, ?_, ?_, ?_, ?_, ?_⟩
  · show summarizeLoop g [] a (edgeRoutesD g a b) [a, b] b [c, d] = _
    rw [e1, summarizeLoop, e2]
    simp only [hint1, List.isEmpty_cons, Bool.false_eq_true, if_false]
    rw [summarizeLoop, e3]
    simp only [hint2, List.isEmpty_nil, if_true]
    rw [summarizeLoop]
    simp
  · simp [mkSegment, labelRoute, sortStrings, insertStr, hw2]
  · simp [mkSegment]
  · simp [mkSegment]
  · simp [mkSegment, labelRoute, sortStrings, insertStr, hw3]
  · simp [mkSegment]
  · simp [mkSegment]

/-- Witness for C3 on the concrete chain graph `gC3`. -/
theorem segment_merge_narrowing_witness :
    ∃ s1 s2, summarize gC3 [1, 2, 3, 4] = [s1, s2] ∧
      s1.route = "R2" ∧ s1.num_stops = 2 ∧ s1.stops = [1, 2, 3] ∧
      s2.route = "R3" ∧ s2.num_stops = 1 ∧ s2.stops = [3, 4] :=
  segment_merge_narrowing gC3 1 2 3 4 "R1" "R2" "R3" 1 1 1
    (.line [(0, 0), (1, 0)]) (.line [(1, 0), (2, 0)]) (.line [(2, 0), (3, 0)])
    (by decide) (by decide) (by decide) (by decide) (by decide) (by decide) (by decide)

/-- Claim C9: when the start and end queries both resolve to exactly the
same single node, both the direct-ride search and the weighted fallback
skip the only candidate pair (`s == e`), so `find_shortest_path` returns
the no-path error rather than a trivial single-node path. -/
theorem same_single_candidate_no_path (g : Graph) (rts : RTS) (q1 q2 : String)
    (n : Nat) (h1 : resolveNodes g q1 = [n]) (h2 : resolveNodes g q2 = [n]) :
    findShortestPath g rts q1 q2 = FSPResult.errNoPath := by
  unfold findShortestPath findShortestPathWith
  rw [h1, h2]
  simp [directRide, fallbackSearch]

/-- Witness for C9 on the one-node graph `gC9`. -/
theorem same_single_candidate_no_path_witness :
    findShortestPath gC9 [("R1", [7])] "x" "x" = FSPResult.errNoPath :=
  same_single_candidate_no_path gC9 [("R1", [7])] "x" "x" 7 (by decide) (by decide)

-- ### Edge-key machinery for the uniqueness invariant (C4)

theorem findEdge_eq_none_iff (u v : Nat) :
    ∀ l : List ((Nat × Nat) × EdgeData),
      findEdge l u v = none ↔ (u, v) ∉ l.map Prod.fst
  | [] => by simp [findEdge]
  | (k, e) :: t => by
    by_cases hk : k = (u, v)
    · subst hk
      simp [findEdge]
    · simp only [findEdge, if_neg hk, List.map_cons, List.mem_cons]
      rw [findEdge_eq_none_iff u v t]
      constructor
      · rintro h (h1 | h2)
        · exact hk h1.symm
        · exact h h2
      · intro h h2
        exact h (Or.inr h2)

theorem addNode_edges (g : Graph) (u : Nat) (attrs : NodeAttrs) :
    (g.addNode u attrs).edges = g.edges := by
  unfold Graph.addNode
  split_ifs <;> rfl

theorem replaceEdge_keys (u v : Nat) (ed : EdgeData) :
    ∀ l : List ((Nat × Nat) × EdgeData),
      (replaceEdge l u v ed).map Prod.fst = l.map Prod.fst
  | [] => rfl
  | (k, e) :: t => by
    by_cases hk : k = (u, v) <;>
      simp [replaceEdge, hk, replaceEdge_keys u v ed t]

theorem appendRouteLabel_keys (g : Graph) (u v : Nat) (r : String) :
    (g.appendRouteLabel u v r).edges.map Prod.fst = g.edges.map Prod.fst := by
  unfold Graph.appendRouteLabel
  induction g.edges with
  | nil => rfl
  | cons p t ih =>
    by_cases hk : p.1 = (u, v) <;> simp [hk, ih]

theorem addEdgeData_keys (g : Graph) (u v : Nat) (ed : EdgeData) :
    (g.addEdgeData u v ed).edges.map Prod.fst =
      (if g.hasEdge u v then g.edges.map Prod.fst
       else g.edges.map Prod.fst ++ [(u, v)]) := by
  unfold Graph.addEdgeData
  split_ifs with h
  · exact replaceEdge_keys u v ed g.edges
  · simp

theorem nodupKeys_addEdgeData (g : Graph) (u v : Nat) (ed : EdgeData)
    (h : (g.edges.map Prod.fst).Nodup) :
    ((g.addEdgeData u v ed).edges.map Prod.fst).Nodup := by
  rw [addEdgeData_keys]
  split_ifs with he
  · exact h
  · have hne : (u, v) ∉ g.edges.map Prod.fst := by
      rw [← findEdge_eq_none_iff]
      unfold Graph.hasEdge Graph.lookupEdge at he
      exact Option.not_isSome_iff_eq_none.mp (by simp [he])
    simp [List.nodup_append, h, hne]

theorem nodupKeys_addHop (geo : GeoOracle) (line : Line) (rn : String) (g : Graph)
    (ab : (Stop × ℚ) × (Stop × ℚ)) (h : (g.edges.map Prod.fst).Nodup) :
    ((addHop geo line rn g ab).edges.map Prod.fst).Nodup := by
  unfold addHop
  simp only [addNode_edges]
  split_ifs with he
  · rw [appendRouteLabel_keys]
    exact h
  · exact nodupKeys_addEdgeData _ _ _ _ h

theorem foldl_preserve {α β : Type} (P : α → Prop) (f : α → β → α)
    (h : ∀ a b, P a → P (f a b)) : ∀ (l : List β) (a : α), P a → P (List.foldl f a l)
  | [], _, ha => ha
  | b :: t, a, ha => foldl_preserve P f h t (f a b) (h a b ha)

theorem nodupKeys_processRoute (geo : GeoOracle) (stopsGdf : List Stop)
    (st : Graph × RTS) (r : RouteFeature) (h : (st.1.edges.map Prod.fst).Nodup) :
    (((processRoute geo stopsGdf st r).1.edges.map Prod.fst).Nodup) := by
  unfold processRoute
  rcases routeSortedStops geo stopsGdf r with _ | ⟨line, sorted⟩
  · exact h
  · simp only
    unfold addRouteEdges
    exact foldl_preserve (fun g => ((Graph.edges g).map Prod.fst).Nodup) _
      (fun a b ha => nodupKeys_addHop _ _ _ _ _ ha) _ _ h

/-- Case analysis for one walk-linker iteration: either nothing happens,
or the pair is fresh, distinct, within the walking threshold, and both
directed walk edges are attempted after the two `_ensure_node` calls. -/
theorem walkPairStep_cases (geo : GeoOracle) (stopsGdf : List Stop)
    (st : Graph × List (Nat × Nat)) (ij : Nat × Nat) :
    walkPairStep geo stopsGdf st ij = st ∨
    ∃ si sj, stopsGdf[ij.1]? = some si ∧ stopsGdf[ij.2]? = some sj ∧
      ij.1 ≠ ij.2 ∧ (min ij.1 ij.2, max ij.1 ij.2) ∉ st.2 ∧
      0 < geo.pointDist (si.x, si.y) (sj.x, sj.y) ∧
      geo.pointDist (si.x, si.y) (sj.x, sj.y) ≤ walkThresholdDeg ∧
      walkPairStep geo stopsGdf st ij =
        (walkProcessed geo st.1 si sj, (min ij.1 ij.2, max ij.1 ij.2) :: st.2) := by
  unfold walkPairStep
  by_cases h1 : ij.1 = ij.2
  · left
    rw [if_pos h1]
  · rw [if_neg h1]
    simp only
    by_cases h2 : (min ij.1 ij.2, max ij.1 ij.2) ∈ st.2
    · left
      rw [if_pos h2]
    · rw [if_neg h2]
      rcases hsi : stopsGdf[ij.1]? with _ | si
      · left
        simp [hsi]
      · rcases hsj : stopsGdf[ij.2]? with _ | sj
        · left
          simp [hsi, hsj]
        · simp only [hsi, hsj]
          by_cases h3 : 0 < geo.pointDist (si.x, si.y) (sj.x, sj.y) ∧
              geo.pointDist (si.x, si.y) (sj.x, sj.y) ≤ walkThresholdDeg
          · right
            refine ⟨si, sj, rfl, rfl, h1, h2, h3.1, h3.2, ?_⟩
            rw [if_pos h3]
            rfl
          · left
            rw [if_neg h3]

theorem nodupKeys_addWalkEdge (g : Graph) (u v : Nat) (d : ℚ) (gm : EdgeGeom)
    (h : (g.edges.map Prod.fst).Nodup) :
    ((addWalkEdge g u v d gm).edges.map Prod.fst).Nodup := by
  unfold addWalkEdge
  split_ifs with he
  · exact h
  · exact nodupKeys_addEdgeData _ _ _ _ h

theorem nodupKeys_walkPairStep (geo : GeoOracle) (stopsGdf : List Stop)
    (st : Graph × List (Nat × Nat)) (ij : Nat × Nat)
    (h : (st.1.edges.map Prod.fst).Nodup) :
    (((walkPairStep geo stopsGdf st ij).1.edges.map Prod.fst).Nodup) := by
  rcases walkPairStep_cases geo stopsGdf st ij with hc | ⟨si, sj, _, _, _, _, _, _, hc⟩
  · rw [hc]
    exact h
  · rw [hc]
    unfold walkProcessed
    apply nodupKeys_addWalkEdge
    apply nodupKeys_addWalkEdge
    unfold ensureStopNode
    simpa only [addNode_edges] using h

/-- Claim C4: in the graph produced by `build_graph` every ordered node
pair keys at most one edge, and when a hop of a later route meets an
existing edge the route name is appended to that edge's label list while
the edge set (hence its weight and geometry, and the absence of a
duplicate edge) is unchanged. -/
theorem edge_uniqueness_and_label_union :
    (∀ (geo : GeoOracle) (inp : EngineInput) (prev : EngineState),
      (((buildGraph geo inp prev).graph.edges.map Prod.fst).Nodup))
    ∧ (∀ (geo : GeoOracle) (line : Line) (rn : String) (g : Graph)
        (ab : (Stop × ℚ) × (Stop × ℚ)),
        g.hasEdge ab.1.1.id ab.2.1.id = true →
        (addHop geo line rn g ab).lookupEdge ab.1.1.id ab.2.1.id =
          (g.lookupEdge ab.1.1.id ab.2.1.id).map
            (fun ed => ⟨ed.weight, ed.routes ++ [rn], ed.geom⟩)
        ∧ (addHop geo line rn g ab).edges.map Prod.fst = g.edges.map Prod.fst) := by
  constructor
  · intro geo inp prev
    unfold buildGraph addWalkingEdges
    simp only
    apply foldl_preserve (fun (st : Graph × List (Nat × Nat)) =>
      ((st.1.edges.map Prod.fst).Nodup)) _
      (fun a b ha => nodupKeys_walkPairStep _ _ _ _ ha)
    apply foldl_preserve (fun (st : Graph × RTS) =>
      ((st.1.edges.map Prod.fst).Nodup)) _
      (fun a b ha => nodupKeys_processRoute _ _ _ _ ha)
    simp [Graph.empty]
  · intro geo line rn g ab he
    unfold addHop
    simp only [he, if_true]
    constructor
    · rw [lookupEdge_addNode, lookupEdge_addNode, lookupEdge_appendRouteLabel, if_pos rfl]
    · rw [addNode_edges, addNode_edges, appendRouteLabel_keys]

/-- Witness for C4 part 2: appending route `R9` to the existing edge
`(1, 2)` of `gC4` unions the label and keeps weight and geometry. -/
theorem edge_uniqueness_and_label_union_witness :
    gC4.hasEdge 1 2 = true ∧
    (addHop geoW 0 "R9" gC4 ((⟨1, "a", 0, 0⟩, 0), (⟨2, "b", 1, 0⟩, 1))).lookupEdge 1 2 =
      some ⟨5, ["R1", "R9"], EdgeGeom.absent⟩ :=
  ⟨by decide,
   ((edge_uniqueness_and_label_union.2 geoW 0 "R9" gC4
      ((⟨1, "a", 0, 0⟩, 0), (⟨2, "b", 1, 0⟩, 1)) (by decide)).1).trans (by decide)⟩

-- ### Fold characterization of the direct-ride search (C1)

theorem foldl_congr_fun {α β : Type} (f g : α → β → α) (h : ∀ a b, f a b = g a b) :
    ∀ (l : List β) (a : α), List.foldl f a l = List.foldl g a l
  | [], _ => rfl
  | b :: t, a => by
    rw [List.foldl_cons, List.foldl_cons, h]
    exact foldl_congr_fun f g h t _

theorem foldl_flatMap {α β γ : Type} (f : γ → α → γ) (g : β → List α) :
    ∀ (l : List β) (a : γ),
      List.foldl f a (l.flatMap g) = l.foldl (fun a x => (g x).foldl f a) a
  | [], _ => rfl
  | b :: t, a => by
    rw [List.flatMap_cons, List.foldl_append, List.foldl_cons]
    exact foldl_flatMap f g t _

theorem foldl_filterMap {α β γ : Type} (f : γ → α → γ) (g : β → Option α) :
    ∀ (l : List β) (a : γ),
      List.foldl f a (l.filterMap g) =
        l.foldl (fun a x => match g x with
          | some y => f a y
          | none => a) a
  | [], _ => rfl
  | b :: t, a => by
    rcases hb : g b with _ | y <;>
      simp only [List.filterMap_cons, hb, List.foldl_cons] <;>
      exact foldl_filterMap f g t _

/-- The triple loop of lines 279-291 is the min-length fold over the
flattened candidate list. -/
theorem directRide_eq (rts : RTS) (starts ends : List Nat) :
    directRide rts starts ends = List.foldl drStep none (candList rts starts ends) := by
  unfold directRide candList
  rw [foldl_flatMap]
  apply foldl_congr_fun
  intro a s
  rw [foldl_flatMap]
  apply foldl_congr_fun
  intro a e
  by_cases hse : s = e
  · rw [if_pos hse, if_pos hse]
    rfl
  · rw [if_neg hse, if_neg hse, foldl_filterMap]
    apply foldl_congr_fun
    intro a r
    rcases hopCandidate s e r with _ | p <;> rfl

theorem mem_candList_iff (rts : RTS) (starts ends : List Nat) (p : List Nat) :
    p ∈ candList rts starts ends ↔ Qualifies rts starts ends p := by
  unfold candList Qualifies
  simp only [List.mem_flatMap]
  constructor
  · rintro ⟨s, hs, e, he, hp⟩
    by_cases hse : s = e
    · rw [if_pos hse] at hp
      exact absurd hp (List.not_mem_nil p)
    · rw [if_neg hse, List.mem_filterMap] at hp
      obtain ⟨r, hr, hrp⟩ := hp
      exact ⟨s, hs, e, he, hse, r, hr, hrp⟩
  · rintro ⟨s, hs, e, he, hse, r, hr, hrp⟩
    refine ⟨s, hs, e, he, ?_⟩
    rw [if_neg hse, List.mem_filterMap]
    exact ⟨r, hr, hrp⟩

theorem drStep_ne_none (acc : Option (List Nat)) (p : List Nat) :
    drStep acc p ≠ none := by
  rcases acc with _ | q
  · simp [drStep]
  · simp only [drStep]
    split_ifs <;> simp

theorem drFold_ne_none : ∀ (l : List (List Nat)) (acc : Option (List Nat)),
    acc ≠ none ∨ l ≠ [] → List.foldl drStep acc l ≠ none
  | [], acc, h => by
    rcases h with h | h
    · simpa using h
    · simp at h
  | p :: t, acc, _ => by
    rw [List.foldl_cons]
    exact drFold_ne_none t (drStep acc p) (Or.inl (drStep_ne_none acc p))

theorem drFold_mem : ∀ (l : List (List Nat)) (acc : Option (List Nat)) (m : List Nat),
    List.foldl drStep acc l = some m → acc = some m ∨ m ∈ l
  | [], _, _, h => Or.inl h
  | p :: t, acc, m, h => by
    rw [List.foldl_cons] at h
    rcases drFold_mem t (drStep acc p) m h with h1 | h1
    · rcases acc with _ | q
      · simp only [drStep] at h1
        injection h1 with h1
        subst h1
        exact Or.inr (List.mem_cons_self _ _)
      · simp only [drStep] at h1
        split_ifs at h1
        · injection h1 with h1
          subst h1
          exact Or.inr (List.mem_cons_self _ _)
        · exact Or.inl h1
    · exact Or.inr (List.mem_cons_of_mem _ h1)

theorem drFold_min : ∀ (l : List (List Nat)) (acc : Option (List Nat)) (m : List Nat),
    List.foldl drStep acc l = some m →
      (∀ q, acc = some q → m.length ≤ q.length) ∧ (∀ q ∈ l, m.length ≤ q.length)
  | [], acc, m, h => by
    have h2 : acc = some m := h
    refine ⟨fun q hq => ?_, by simp⟩
    rw [h2] at hq
    injection hq with hq
    rw [hq]
  | p :: t, acc, m, h => by
    rw [List.foldl_cons] at h
    obtain ⟨ih1, ih2⟩ := drFold_min t (drStep acc p) m h
    have hp : m.length ≤ p.length ∧ ∀ q, acc = some q → m.length ≤ q.length := by
      rcases acc with _ | q
      · refine ⟨ih1 p ?_, fun q hq => by cases hq⟩
        simp [drStep]
      · simp only [drStep] at ih1
        split_ifs at ih1 with hlt
        · refine ⟨ih1 p rfl, fun q2 hq2 => ?_⟩
          injection hq2 with hq2
          rw [← hq2]
          exact le_trans (ih1 p rfl) (le_of_lt hlt)
        · refine ⟨le_trans (ih1 q rfl) (by omega), fun q2 hq2 => ?_⟩
          injection hq2 with hq2
          rw [← hq2]
          exact ih1 q rfl
    refine ⟨hp.2, fun q hq => ?_⟩
    rcases List.mem_cons.mp hq with hq | hq
    · rw [hq]
      exact hp.1
    · exact ih2 q hq

/-- Claim C1: whenever some recorded route stop list contains a start
candidate strictly before an end candidate, `find_shortest_path` returns
the rendering of a qualifying contiguous slice of minimal length (fewest
stops) among all qualifying `(route, subsequence)` results, and the
weighted fallback is never consulted: the result is the same for every
fallback implementation `sp`. -/
theorem direct_ride_priority (g : Graph) (rts : RTS) (q1 q2 : String)
    (starts ends : List Nat) (hst : resolveNodes g q1 = starts)
    (hen : resolveNodes g q2 = ends) (p0 : List Nat)
    (hq : Qualifies rts starts ends p0) :
    ∃ p, Qualifies rts starts ends p ∧
      (∀ q, Qualifies rts starts ends q → p.length ≤ q.length) ∧
      ∀ sp, findShortestPathWith sp g rts q1 q2 = renderResult g p := by
  have hmem : p0 ∈ candList rts starts ends := (mem_candList_iff rts starts ends p0).mpr hq
  have hne : candList rts starts ends ≠ [] := by
    intro hnil
    rw [hnil] at hmem
    exact absurd hmem (List.not_mem_nil p0)
  rcases hm : List.foldl drStep none (candList rts starts ends) with _ | m
  · exact absurd hm (drFold_ne_none _ none (Or.inr hne))
  have hmm : m ∈ candList rts starts ends := by
    rcases drFold_mem _ none m hm with h1 | h1
    · cases h1
    · exact h1
  have hmin := (drFold_min _ none m hm).2
  refine ⟨m, (mem_candList_iff rts starts ends m).mp hmm,
    fun q hq2 => hmin q ((mem_candList_iff rts starts ends q).mpr hq2), fun sp => ?_⟩
  have hdr : directRide rts starts ends = some m := by
    rw [directRide_eq]
    exact hm
  obtain ⟨s, hs, e, he, _⟩ := hq
  have hstarts : starts.isEmpty = false := by
    cases starts
    · exact absurd hs (List.not_mem_nil s)
    · rfl
  have hends : ends.isEmpty = false := by
    cases ends
    · exact absurd he (List.not_mem_nil e)
    · rfl
  unfold findShortestPathWith
  rw [hst, hen]
  simp [hstarts, hends, hdr]

/-- Witness for C1: queries `a` and `d` on `gC3` with one recorded route
`[1, 2, 3, 4]`, whose slice from node 1 to node 4 is the whole list. -/
theorem direct_ride_priority_witness :
    ∃ p, Qualifies [("RX", [1, 2, 3, 4])] [1] [4] p ∧
      (∀ q, Qualifies [("RX", [1, 2, 3, 4])] [1] [4] q → p.length ≤ q.length) ∧
      ∀ sp, findShortestPathWith sp gC3 [("RX", [1, 2, 3, 4])] "a" "d" =
        renderResult gC3 p :=
  direct_ride_priority gC3 [("RX", [1, 2, 3, 4])] "a" "d" [1] [4]
    (by decide) (by decide) [1, 2, 3, 4]
    ⟨1, by decide, 4, by decide, by decide, ("RX", [1, 2, 3, 4]), by decide, by decide⟩

-- ### Soundness of the path enumeration and the NoPath case (C6)

theorem findEdge_isSome_of_mem :
    ∀ (l : List ((Nat × Nat) × EdgeData)) (u v : Nat) (ed : EdgeData),
      ((u, v), ed) ∈ l → (findEdge l u v).isSome = true
  | (k, e) :: t, u, v, ed, h => by
    by_cases hk : k = (u, v)
    · rw [findEdge, if_pos hk]
      rfl
    · rw [findEdge, if_neg hk]
      rcases List.mem_cons.mp h with h1 | h1
      · injection h1 with h1a h1b
        exact absurd h1a.symm hk
      · exact findEdge_isSome_of_mem t u v ed h1

theorem hasEdge_of_mem_successors (g : Graph) (u v : Nat)
    (h : v ∈ successors g u) : g.hasEdge u v = true := by
  unfold successors at h
  rw [List.mem_map] at h
  obtain ⟨p, hp, hv⟩ := h
  rw [List.mem_filter] at hp
  obtain ⟨hmem, hu⟩ := hp
  have hu2 : p.1.1 = u := by simpa using hu
  have hkey : p.1 = (u, v) := by
    rw [Prod.ext_iff]
    exact ⟨hu2, hv⟩
  unfold Graph.hasEdge Graph.lookupEdge
  apply findEdge_isSome_of_mem g.edges u v p.2
  rw [← hkey]
  simpa using hmem

/-- Every list produced by the enumeration is a genuine edge-walk. -/
theorem simplePathsAux_sound (g : Graph) (tgt : Nat) :
    ∀ (fuel u : Nat) (allowed : List Nat) (p : List Nat),
      p ∈ simplePathsAux g tgt fuel u allowed → IsPathFrom g u tgt p := by
  intro fuel
  induction fuel with
  | zero =>
    intro u allowed p hp
    unfold simplePathsAux at hp
    by_cases h : u = tgt
    · rw [if_pos h] at hp
      rcases List.mem_cons.mp hp with h1 | h1
      · subst h1
        subst h
        exact IsPathFrom.single u
      · exact absurd h1 (List.not_mem_nil p)
    · rw [if_neg h] at hp
      exact absurd hp (List.not_mem_nil p)
  | succ fuel ih =>
    intro u allowed p hp
    unfold simplePathsAux at hp
    by_cases h : u = tgt
    · rw [if_pos h] at hp
      rcases List.mem_cons.mp hp with h1 | h1
      · subst h1
        subst h
        exact IsPathFrom.single u
      · exact absurd h1 (List.not_mem_nil p)
    · rw [if_neg h] at hp
      rw [List.mem_flatMap] at hp
      obtain ⟨v, hv, hpv⟩ := hp
      by_cases hva : v ∈ allowed
      · rw [if_pos hva] at hpv
        rw [List.mem_map] at hpv
        obtain ⟨p2, hp2, hpp⟩ := hpv
        subst hpp
        exact IsPathFrom.cons u v tgt p2 (hasEdge_of_mem_successors g u v hv)
          (ih v (allowed.erase v) p2 hp2)
      · rw [if_neg hva] at hpv
        exact absurd hpv (List.not_mem_nil p)

/-- If no walk connects `s` to `e`, the modelled library search reports
no path (`NetworkXNoPath`). -/
theorem nxShortestPath_eq_none (g : Graph) (s e : Nat)
    (h : ¬ ∃ p, IsPathFrom g s e p) : nxShortestPath g s e = none := by
  unfold nxShortestPath
  rcases hsp : simplePaths g s e with _ | ⟨p, t⟩
  · rfl
  · exfalso
    apply h
    refine ⟨p, ?_⟩
    have hmem : p ∈ simplePaths g s e := by
      rw [hsp]
      exact List.mem_cons_self p t
    unfold simplePaths at hmem
    exact simplePathsAux_sound g e _ s _ p hmem

theorem foldl_id {α β : Type} (f : α → β → α) :
    ∀ (l : List β) (a : α), (∀ acc, ∀ b ∈ l, f acc b = acc) → List.foldl f a l = a
  | [], a, _ => rfl
  | b :: t, a, h => by
    rw [List.foldl_cons, h a b (List.mem_cons_self _ _)]
    exact foldl_id f t a (fun acc b2 hb2 => h acc b2 (List.mem_cons_of_mem _ hb2))

/-- When the per-pair search finds nothing for any candidate pair, the
fallback loop of lines 294-313 keeps its initial empty result. -/
theorem fallbackSearch_none (sp : Nat → Nat → Option (List Nat × ℚ))
    (starts ends : List Nat)
    (h : ∀ s ∈ starts, ∀ e ∈ ends, s ≠ e → sp s e = none) :
    fallbackSearch sp starts ends = none := by
  unfold fallbackSearch
  rw [foldl_id]
  intro acc s hs
  apply foldl_id
  intro acc2 e he
  by_cases hse : s = e
  · rw [if_pos hse]
  · rw [if_neg hse, h s hs e he hse]

/-- When no direct ride qualifies, the triple loop finds nothing. -/
theorem directRide_eq_none (rts : RTS) (starts ends : List Nat)
    (h : ¬ ∃ p, Qualifies rts starts ends p) :
    directRide rts starts ends = none := by
  rw [directRide_eq]
  rcases hc : candList rts starts ends with _ | ⟨p, t⟩
  · rfl
  · exact absurd ⟨p, (mem_candList_iff rts starts ends p).mp
      (hc ▸ List.mem_cons_self p t)⟩ h

theorem findShortestPath_def (g : Graph) (rts : RTS) (q1 q2 : String) :
    findShortestPath g rts q1 q2 =
      findShortestPathWith (nxShortestPath g) g rts q1 q2 := rfl

theorem isEmpty_false_of_ne_nil {α : Type} {l : List α} (h : l ≠ []) :
    l.isEmpty = false := by
  cases l
  · exact absurd rfl h
  · rfl

theorem fsp_eq_noMatchStart (sp : Nat → Nat → Option (List Nat × ℚ)) (g : Graph)
    (rts : RTS) (q1 q2 : String) (h : resolveNodes g q1 = []) :
    findShortestPathWith sp g rts q1 q2 = FSPResult.errNoMatchStart q1 := by
  unfold findShortestPathWith
  rw [h]
  rfl

theorem fsp_eq_noMatchEnd (sp : Nat → Nat → Option (List Nat × ℚ)) (g : Graph)
    (rts : RTS) (q1 q2 : String) (h1 : resolveNodes g q1 ≠ [])
    (h2 : resolveNodes g q2 = []) :
    findShortestPathWith sp g rts q1 q2 = FSPResult.errNoMatchEnd q2 := by
  unfold findShortestPathWith
  rw [h2]
  simp [isEmpty_false_of_ne_nil h1]

theorem fsp_eq_noPath (sp : Nat → Nat → Option (List Nat × ℚ)) (g : Graph)
    (rts : RTS) (q1 q2 : String) (h1 : resolveNodes g q1 ≠ [])
    (h2 : resolveNodes g q2 ≠ [])
    (hdr : directRide rts (resolveNodes g q1) (resolveNodes g q2) = none)
    (hfb : fallbackSearch sp (resolveNodes g q1) (resolveNodes g q2) = none) :
    findShortestPathWith sp g rts q1 q2 = FSPResult.errNoPath := by
  unfold findShortestPathWith
  simp [isEmpty_false_of_ne_nil h1, isEmpty_false_of_ne_nil h2, hdr, hfb]

theorem fsp_eq_render (sp : Nat → Nat → Option (List Nat × ℚ)) (g : Graph)
    (rts : RTS) (q1 q2 : String) (h1 : resolveNodes g q1 ≠ [])
    (h2 : resolveNodes g q2 ≠ []) (p : List Nat)
    (hp : (match directRide rts (resolveNodes g q1) (resolveNodes g q2) with
           | some d => some d
           | none => fallbackSearch sp (resolveNodes g q1) (resolveNodes g q2))
          = some p) :
    findShortestPathWith sp g rts q1 q2 = renderResult g p := by
  unfold findShortestPathWith
  simp only [isEmpty_false_of_ne_nil h1, isEmpty_false_of_ne_nil h2,
    Bool.false_eq_true, if_false, hp]

/-- Claim C6: `find_shortest_path` returns a NoMatch-style error result
exactly when the start or end query matches zero nodes by
case-insensitive substring; when both match but neither a direct ride nor
any weighted path connects any distinct candidate pair it returns the
NoPath-style error; all error outcomes are ordinary return values of the
total function (never uncaught exceptions). -/
theorem query_error_taxonomy (g : Graph) (rts : RTS) (q1 q2 : String) :
    ((findShortestPath g rts q1 q2 = FSPResult.errNoMatchStart q1 ∨
      findShortestPath g rts q1 q2 = FSPResult.errNoMatchEnd q2) ↔
      (resolveNodes g q1 = [] ∨ resolveNodes g q2 = []))
    ∧ (resolveNodes g q1 ≠ [] → resolveNodes g q2 ≠ [] →
       (¬ ∃ p, Qualifies rts (resolveNodes g q1) (resolveNodes g q2) p) →
       (∀ s ∈ resolveNodes g q1, ∀ e ∈ resolveNodes g q2, s ≠ e →
         ¬ ∃ p, IsPathFrom g s e p) →
       findShortestPath g rts q1 q2 = FSPResult.errNoPath) := by
  by_cases h1 : resolveNodes g q1 = []
  · refine ⟨⟨fun _ => Or.inl h1, fun _ => Or.inl ?_⟩, fun h1' => absurd h1 h1'⟩
    exact fsp_eq_noMatchStart (nxShortestPath g) g rts q1 q2 h1
  · by_cases h2 : resolveNodes g q2 = []
    · refine ⟨⟨fun _ => Or.inr h2, fun _ => Or.inr ?_⟩,
        fun _ h2' => absurd h2 h2'⟩
      exact fsp_eq_noMatchEnd (nxShortestPath g) g rts q1 q2 h1 h2
    · constructor
      · constructor
        · intro hmatch
          rcases hpid : (match directRide rts (resolveNodes g q1) (resolveNodes g q2) with
              | some d => some d
              | none => fallbackSearch (nxShortestPath g) (resolveNodes g q1)
                  (resolveNodes g q2)) with _ | p
          · have := fsp_eq_noPath (nxShortestPath g) g rts q1 q2 h1 h2 ?hd ?hf
            case hd =>
              rcases hdr : directRide rts (resolveNodes g q1) (resolveNodes g q2) with _ | d
              · rfl
              · rw [hdr] at hpid
                exact absurd hpid (by simp)
            case hf =>
              rcases hdr : directRide rts (resolveNodes g q1) (resolveNodes g q2) with _ | d
              · rw [hdr] at hpid
                exact hpid
              · rw [hdr] at hpid
                exact absurd hpid (by simp)
            rcases hmatch with hmatch | hmatch <;>
              · rw [findShortestPath_def, this] at hmatch
                exact absurd hmatch (by simp)
          · have := fsp_eq_render (nxShortestPath g) g rts q1 q2 h1 h2 p hpid
            rcases hmatch with hmatch | hmatch <;>
              · rw [findShortestPath_def, this] at hmatch
                unfold renderResult at hmatch
                exact absurd hmatch (by simp)
        · intro hor
          rcases hor with hor | hor
          · exact absurd hor h1
          · exact absurd hor h2
      · intro _ _ hnq hnp
        apply fsp_eq_noPath (nxShortestPath g) g rts q1 q2 h1 h2
        · exact directRide_eq_none _ _ _ hnq
        · apply fallbackSearch_none
          intro s hs e he hse
          exact nxShortestPath_eq_none g s e (hnp s hs e he hse)

/-- Witness for C6 on the edgeless graph `gC6`: both queries match, no
direct ride and no connecting path exist, so the result is the NoPath
error value. -/
theorem query_error_taxonomy_witness :
    findShortestPath gC6 [] "a" "b" = FSPResult.errNoPath :=
  (query_error_taxonomy gC6 [] "a" "b").2 (by decide) (by decide)
    (by
      rintro ⟨p, s, hs, e, he, hse, r, hr, hcand⟩
      exact absurd hr (List.not_mem_nil r))
    (by
      intro s hs e he hse h
      obtain ⟨p, hp⟩ := h
      cases hp with
      | single u => exact hse rfl
      | cons u v e2 p2 huv hp2 =>
        simp [gC6, Graph.hasEdge, Graph.lookupEdge, findEdge] at huv)

-- ### Walk-linker postcondition lemmas (C2)

theorem lookupEdge_addWalkEdge (g : Graph) (a b : Nat) (d : ℚ) (gm : EdgeGeom)
    (u v : Nat) :
    (addWalkEdge g a b d gm).lookupEdge u v =
      if g.hasEdge a b = false ∧ (a, b) = (u, v) then some ⟨d, ["WALK"], gm⟩
      else g.lookupEdge u v := by
  unfold addWalkEdge
  by_cases he : g.hasEdge a b
  · rw [if_pos he, if_neg]
    rintro ⟨hf, _⟩
    rw [he] at hf
    cases hf
  · have hf : g.hasEdge a b = false := by
      rwa [Bool.not_eq_true] at he
    rw [if_neg he, lookupEdge_addEdgeData]
    by_cases hk : (a, b) = (u, v)
    · rw [if_pos hk, if_pos ⟨hf, hk⟩]
    · rw [if_neg hk, if_neg (fun hc => hk hc.2)]

theorem addWalkEdge_preserves (g : Graph) (a b : Nat) (d : ℚ) (gm : EdgeGeom)
    (u v : Nat) (ed : EdgeData) (h : g.lookupEdge u v = some ed) :
    (addWalkEdge g a b d gm).lookupEdge u v = some ed := by
  rw [lookupEdge_addWalkEdge]
  split_ifs with hcond
  · obtain ⟨hf, hk⟩ := hcond
    injection hk with hk1 hk2
    subst hk1
    subst hk2
    unfold Graph.hasEdge at hf
    rw [h] at hf
    exact absurd hf (by simp)
  · exact h

theorem lookupEdge_ensureStopNode (g : Graph) (s : Stop) (u v : Nat) :
    (ensureStopNode g s).lookupEdge u v = g.lookupEdge u v := by
  unfold ensureStopNode
  exact lookupEdge_addNode g s.id _ u v

theorem walkProcessed_preserves (geo : GeoOracle) (g : Graph) (si sj : Stop)
    (u v : Nat) (ed : EdgeData) (h : g.lookupEdge u v = some ed) :
    (walkProcessed geo g si sj).lookupEdge u v = some ed := by
  unfold walkProcessed
  apply addWalkEdge_preserves
  apply addWalkEdge_preserves
  rw [lookupEdge_ensureStopNode, lookupEdge_ensureStopNode]
  exact h

theorem walkPairStep_preserves (geo : GeoOracle) (stopsGdf : List Stop)
    (st : Graph × List (Nat × Nat)) (ij : Nat × Nat) (u v : Nat) (ed : EdgeData)
    (h : st.1.lookupEdge u v = some ed) :
    (walkPairStep geo stopsGdf st ij).1.lookupEdge u v = some ed := by
  rcases walkPairStep_cases geo stopsGdf st ij with hc | ⟨si, sj, _, _, _, _, _, _, hc⟩
  · rw [hc]
    exact h
  · rw [hc]
    exact walkProcessed_preserves geo st.1 si sj u v ed h

theorem dirDone_mono (geo : GeoOracle) (g0 g g2 : Graph) (a b : Stop)
    (hm : ∀ u v ed, g.lookupEdge u v = some ed → g2.lookupEdge u v = some ed)
    (h : dirDone geo g0 g a b) : dirDone geo g0 g2 a b := by
  unfold dirDone at h ⊢
  rcases hg : g0.lookupEdge a.id b.id with _ | e
  · rw [hg] at h
    obtain ⟨ed, h1, h2, h3⟩ := h
    exact ⟨ed, hm _ _ _ h1, h2, h3⟩
  · rw [hg] at h
    exact hm _ _ _ h

/-- The edge between an untouched key pair is unchanged by processing a
different stop pair. -/
theorem walkProcessed_other (geo : GeoOracle) (g : Graph) (si sj : Stop)
    (u v : Nat) (h1 : (si.id, sj.id) ≠ (u, v)) (h2 : (sj.id, si.id) ≠ (u, v)) :
    (walkProcessed geo g si sj).lookupEdge u v = g.lookupEdge u v := by
  unfold walkProcessed
  rw [lookupEdge_addWalkEdge, if_neg (fun hc => h2 hc.2),
    lookupEdge_addWalkEdge, if_neg (fun hc => h1 hc.2),
    lookupEdge_ensureStopNode, lookupEdge_ensureStopNode]

theorem nodup_ids_inj (stopsGdf : List Stop)
    (hnd : (stopsGdf.map (fun s => s.id)).Nodup) (i j : Nat) (si sj : Stop)
    (hi : stopsGdf[i]? = some si) (hj : stopsGdf[j]? = some sj)
    (heq : si.id = sj.id) : i = j := by
  have h1 : (stopsGdf.map (fun s => s.id))[i]? = some si.id := by
    rw [List.getElem?_map, hi]
    rfl
  have h2 : (stopsGdf.map (fun s => s.id))[j]? = some sj.id := by
    rw [List.getElem?_map, hj]
    rfl
  rw [heq] at h1
  have hlen : i < (stopsGdf.map (fun s => s.id)).length :=
    List.getElem?_eq_some_iff.mp h1 |>.choose
  exact List.getElem?_inj hlen hnd (h1.trans h2.symm)

/-- Unordered pair keys determine the index pair up to swap. -/
theorem key_eq_pair (i j i2 j2 : Nat)
    (h : ((min i j, max i j) : Nat × Nat) = (min i2 j2, max i2 j2)) :
    (i = i2 ∧ j = j2) ∨ (i = j2 ∧ j = i2) := by
  injection h with h1 h2
  omega

theorem pairDone_after_process (geo : GeoOracle) (g0 g : Graph) (si sj : Stop)
    (hsym : ∀ p q : Coord, geo.pointDist p q = geo.pointDist q p)
    (hne : si.id ≠ sj.id)
    (hpre1 : g.lookupEdge si.id sj.id = g0.lookupEdge si.id sj.id)
    (hpre2 : g.lookupEdge sj.id si.id = g0.lookupEdge sj.id si.id) :
    dirDone geo g0 (walkProcessed geo g si sj) si sj ∧
    dirDone geo g0 (walkProcessed geo g si sj) sj si := by
  have hG2 : ∀ u v, (ensureStopNode (ensureStopNode g si) sj).lookupEdge u v =
      g.lookupEdge u v := by
    intro u v
    rw [lookupEdge_ensureStopNode, lookupEdge_ensureStopNode]
  have hne1 : ((si.id, sj.id) : Nat × Nat) ≠ (sj.id, si.id) := by
    intro h
    injection h with h1
    exact hne h1
  constructor
  · unfold dirDone
    rcases hg0 : g0.lookupEdge si.id sj.id with _ | e
    · have hG2n : (ensureStopNode (ensureStopNode g si) sj).lookupEdge si.id sj.id
          = none := by
        rw [hG2, hpre1, hg0]
      have hG2f : (ensureStopNode (ensureStopNode g si) sj).hasEdge si.id sj.id
          = false := by
        unfold Graph.hasEdge
        rw [hG2n]
        rfl
      have hG3 : (addWalkEdge (ensureStopNode (ensureStopNode g si) sj)
          si.id sj.id (geo.pointDist (si.x, si.y) (sj.x, sj.y))
          (EdgeGeom.line [(si.x, si.y), (sj.x, sj.y)])).lookupEdge si.id sj.id =
          some ⟨geo.pointDist (si.x, si.y) (sj.x, sj.y), ["WALK"],
            EdgeGeom.line [(si.x, si.y), (sj.x, sj.y)]⟩ := by
        rw [lookupEdge_addWalkEdge, if_pos ⟨hG2f, rfl⟩]
      have hG4 := addWalkEdge_preserves _ sj.id si.id
        (geo.pointDist (si.x, si.y) (sj.x, sj.y))
        (EdgeGeom.line [(si.x, si.y), (sj.x, sj.y)]) si.id sj.id _ hG3
      exact ⟨_, hG4, rfl, rfl⟩
    · have hG2s : (ensureStopNode (ensureStopNode g si) sj).lookupEdge si.id sj.id
          = some e := by
        rw [hG2, hpre1, hg0]
      unfold walkProcessed
      exact addWalkEdge_preserves _ _ _ _ _ _ _ _
        (addWalkEdge_preserves _ _ _ _ _ _ _ _ hG2s)
  · unfold dirDone
    have hG3o : (addWalkEdge (ensureStopNode (ensureStopNode g si) sj)
        si.id sj.id (geo.pointDist (si.x, si.y) (sj.x, sj.y))
        (EdgeGeom.line [(si.x, si.y), (sj.x, sj.y)])).lookupEdge sj.id si.id =
        g0.lookupEdge sj.id si.id := by
      rw [lookupEdge_addWalkEdge, if_neg (fun hc => hne1 hc.2), hG2, hpre2]
    rcases hg0 : g0.lookupEdge sj.id si.id with _ | e
    · have hG3f : (addWalkEdge (ensureStopNode (ensureStopNode g si) sj)
          si.id sj.id (geo.pointDist (si.x, si.y) (sj.x, sj.y))
          (EdgeGeom.line [(si.x, si.y), (sj.x, sj.y)])).hasEdge sj.id si.id
          = false := by
        unfold Graph.hasEdge
        rw [hG3o, hg0]
        rfl
      refine ⟨⟨geo.pointDist (si.x, si.y) (sj.x, sj.y), ["WALK"],
        EdgeGeom.line [(si.x, si.y), (sj.x, sj.y)]⟩, ?_, rfl, hsym _ _⟩
      unfold walkProcessed
      rw [lookupEdge_addWalkEdge, if_pos ⟨hG3f, rfl⟩]
    · unfold walkProcessed
      apply addWalkEdge_preserves
      rw [hG3o, hg0]

theorem walkInv_init (geo : GeoOracle) (stopsGdf : List Stop) (g0 : Graph) :
    walkInv geo stopsGdf g0 (g0, []) :=
  ⟨fun _ _ _ h => h, fun key hkey => absurd hkey (List.not_mem_nil key),
   fun _ _ _ _ _ _ _ _ => rfl⟩

theorem walkInv_step (geo : GeoOracle) (stopsGdf : List Stop) (g0 : Graph)
    (hnd : (stopsGdf.map (fun s => s.id)).Nodup)
    (hsym : ∀ p q : Coord, geo.pointDist p q = geo.pointDist q p)
    (st : Graph × List (Nat × Nat)) (ij : Nat × Nat)
    (hinv : walkInv geo stopsGdf g0 st) :
    walkInv geo stopsGdf g0 (walkPairStep geo stopsGdf st ij) := by
  obtain ⟨hP1, hP2, hP3⟩ := hinv
  rcases walkPairStep_cases geo stopsGdf st ij with
    hc | ⟨si, sj, hi, hj, hij, hfresh, hd0, hd1, hc⟩
  · rw [hc]
    exact ⟨hP1, hP2, hP3⟩
  · rw [hc]
    have hne : si.id ≠ sj.id :=
      fun h => hij (nodup_ids_inj stopsGdf hnd ij.1 ij.2 si sj hi hj h)
    have hpre1 : st.1.lookupEdge si.id sj.id = g0.lookupEdge si.id sj.id :=
      hP3 ij.1 ij.2 si sj hij hi hj hfresh
    have hpre2 : st.1.lookupEdge sj.id si.id = g0.lookupEdge sj.id si.id := by
      apply hP3 ij.2 ij.1 sj si (fun h => hij h.symm) hj hi
      rwa [Nat.min_comm ij.2 ij.1, Nat.max_comm ij.2 ij.1]
    obtain ⟨hdone1, hdone2⟩ :=
      pairDone_after_process geo g0 st.1 si sj hsym hne hpre1 hpre2
    refine ⟨?_, ?_, ?_⟩
    · intro u v ed h
      exact walkProcessed_preserves geo st.1 si sj u v ed (hP1 u v ed h)
    · intro key hkey
      rcases List.mem_cons.mp hkey with hkey | hkey
      · exact ⟨ij.1, ij.2, si, sj, hkey, hij, hi, hj, hd0, hd1, hdone1, hdone2⟩
      · obtain ⟨i2, j2, si2, sj2, hk2, hij2, hi2, hj2, hd02, hd12, hdA, hdB⟩ :=
          hP2 key hkey
        exact ⟨i2, j2, si2, sj2, hk2, hij2, hi2, hj2, hd02, hd12,
          dirDone_mono geo g0 st.1 _ si2 sj2
            (walkProcessed_preserves geo st.1 si sj) hdA,
          dirDone_mono geo g0 st.1 _ sj2 si2
            (walkProcessed_preserves geo st.1 si sj) hdB⟩
    · intro i2 j2 si2 sj2 hij2 hi2 hj2 hkey2
      have hkey2t : ((min i2 j2, max i2 j2) : Nat × Nat) ∉ st.2 :=
        fun h => hkey2 (List.mem_cons_of_mem _ h)
      have hkeyne : ((min i2 j2, max i2 j2) : Nat × Nat) ≠
          (min ij.1 ij.2, max ij.1 ij.2) :=
        fun h => hkey2 (h ▸ List.mem_cons_self _ _)
      have hdiff1 : ((si.id, sj.id) : Nat × Nat) ≠ (si2.id, sj2.id) := by
        intro h
        injection h with ha hb
        have e1 : ij.1 = i2 := nodup_ids_inj stopsGdf hnd ij.1 i2 si si2 hi hi2 ha
        have e2 : ij.2 = j2 := nodup_ids_inj stopsGdf hnd ij.2 j2 sj sj2 hj hj2 hb
        exact hkeyne (by rw [← e1, ← e2])
      have hdiff2 : ((sj.id, si.id) : Nat × Nat) ≠ (si2.id, sj2.id) := by
        intro h
        injection h with ha hb
        have e1 : ij.2 = i2 := nodup_ids_inj stopsGdf hnd ij.2 i2 sj si2 hj hi2 ha
        have e2 : ij.1 = j2 := nodup_ids_inj stopsGdf hnd ij.1 j2 si sj2 hi hj2 hb
        refine hkeyne ?_
        rw [← e1, ← e2, Nat.min_comm ij.2 ij.1, Nat.max_comm ij.2 ij.1]
      rw [walkProcessed_other geo st.1 si sj si2.id sj2.id hdiff1 hdiff2]
      exact hP3 i2 j2 si2 sj2 hij2 hi2 hj2 hkey2t

theorem walkPairStep_key_mem (geo : GeoOracle) (stopsGdf : List Stop)
    (st : Graph × List (Nat × Nat)) (i j : Nat) (si sj : Stop)
    (hij : i ≠ j) (hi : stopsGdf[i]? = some si) (hj : stopsGdf[j]? = some sj)
    (hd0 : 0 < geo.pointDist (si.x, si.y) (sj.x, sj.y))
    (hd1 : geo.pointDist (si.x, si.y) (sj.x, sj.y) ≤ walkThresholdDeg) :
    ((min i j, max i j) : Nat × Nat) ∈ (walkPairStep geo stopsGdf st (i, j)).2 := by
  unfold walkPairStep
  rw [if_neg (show ¬((i, j).1 = (i, j).2) from hij)]
  simp only
  by_cases h2 : ((min i j, max i j) : Nat × Nat) ∈ st.2
  · rw [if_pos h2]
    exact h2
  · rw [if_neg h2]
    simp only [hi, hj]
    rw [if_pos ⟨hd0, hd1⟩]
    exact List.mem_cons_self _ _

theorem walkPairStep_proc_mono (geo : GeoOracle) (stopsGdf : List Stop)
    (st : Graph × List (Nat × Nat)) (ij : Nat × Nat) (key : Nat × Nat)
    (h : key ∈ st.2) : key ∈ (walkPairStep geo stopsGdf st ij).2 := by
  rcases walkPairStep_cases geo stopsGdf st ij with
    hc | ⟨si, sj, _, _, _, _, _, _, hc⟩ <;> rw [hc]
  · exact h
  · exact List.mem_cons_of_mem _ h

/-- Claim C2: after `_add_walking_edges`, every unordered pair of distinct
stops whose computed distance `d` satisfies `0 < d ≤ walk_threshold_deg`
(boundary inclusive) carries a directed WALK edge of weight `d` in each
direction in which no edge previously existed; pre-existing edges are
never replaced or modified; and a pair strictly beyond the threshold gets
no walking edge. -/
theorem walking_edges_within_threshold (geo : GeoOracle) (stopsGdf : List Stop)
    (g0 : Graph) (i j : Nat) (si sj : Stop)
    (hnd : (stopsGdf.map (fun s => s.id)).Nodup)
    (hsym : ∀ p q : Coord, geo.pointDist p q = geo.pointDist q p)
    (hij : i ≠ j) (hi : stopsGdf[i]? = some si) (hj : stopsGdf[j]? = some sj) :
    ((0 < geo.pointDist (si.x, si.y) (sj.x, sj.y) ∧
      geo.pointDist (si.x, si.y) (sj.x, sj.y) ≤ walkThresholdDeg) →
      ((g0.lookupEdge si.id sj.id = none →
        ∃ ed, (addWalkingEdges geo stopsGdf g0).lookupEdge si.id sj.id = some ed ∧
          ed.routes = ["WALK"] ∧
          ed.weight = geo.pointDist (si.x, si.y) (sj.x, sj.y))
      ∧ (g0.lookupEdge sj.id si.id = none →
        ∃ ed, (addWalkingEdges geo stopsGdf g0).lookupEdge sj.id si.id = some ed ∧
          ed.routes = ["WALK"] ∧
          ed.weight = geo.pointDist (si.x, si.y) (sj.x, sj.y))))
    ∧ (∀ u v ed, g0.lookupEdge u v = some ed →
        (addWalkingEdges geo stopsGdf g0).lookupEdge u v = some ed)
    ∧ (walkThresholdDeg < geo.pointDist (si.x, si.y) (sj.x, sj.y) →
        (addWalkingEdges geo stopsGdf g0).lookupEdge si.id sj.id =
          g0.lookupEdge si.id sj.id ∧
        (addWalkingEdges geo stopsGdf g0).lookupEdge sj.id si.id =
          g0.lookupEdge sj.id si.id) := by
  have hgf : addWalkingEdges geo stopsGdf g0 =
      (((List.range stopsGdf.length).flatMap
        (fun i2 => (List.range stopsGdf.length).map (fun j2 => (i2, j2)))).foldl
        (walkPairStep geo stopsGdf) (g0, [])).1 := rfl
  have hfin : walkInv geo stopsGdf g0
      (((List.range stopsGdf.length).flatMap
        (fun i2 => (List.range stopsGdf.length).map (fun j2 => (i2, j2)))).foldl
        (walkPairStep geo stopsGdf) (g0, [])) :=
    foldl_preserve _ _ (fun a b ha => walkInv_step geo stopsGdf g0 hnd hsym a b ha)
      _ _ (walkInv_init geo stopsGdf g0)
  obtain ⟨hP1, hP2, hP3⟩ := hfin
  have hid_of_i2 : ∀ (i2 j2 : Nat) (si2 sj2 : Stop),
      ((min i j, max i j) : Nat × Nat) = (min i2 j2, max i2 j2) →
      stopsGdf[i2]? = some si2 → stopsGdf[j2]? = some sj2 →
      (si2 = si ∧ sj2 = sj) ∨ (si2 = sj ∧ sj2 = si) := by
    intro i2 j2 si2 sj2 hk hi2 hj2
    rcases key_eq_pair i j i2 j2 hk with ⟨e1, e2⟩ | ⟨e1, e2⟩
    · left
      rw [← e1] at hi2
      rw [← e2] at hj2
      rw [hi] at hi2
      rw [hj] at hj2
      exact ⟨(Option.some.inj hi2).symm, (Option.some.inj hj2).symm⟩
    · right
      rw [← e2] at hi2
      rw [← e1] at hj2
      rw [hj] at hi2
      rw [hi] at hj2
      exact ⟨(Option.some.inj hi2).symm, (Option.some.inj hj2).symm⟩
  refine ⟨?_, ?_, ?_⟩
  · rintro ⟨hd0, hd1⟩
    have hilt : i < stopsGdf.length := (List.getElem?_eq_some_iff.mp hi).choose
    have hjlt : j < stopsGdf.length := (List.getElem?_eq_some_iff.mp hj).choose
    have hmem : ((i, j) : Nat × Nat) ∈ (List.range stopsGdf.length).flatMap
        (fun i2 => (List.range stopsGdf.length).map (fun j2 => (i2, j2))) := by
      rw [List.mem_flatMap]
      exact ⟨i, List.mem_range.mpr hilt,
        List.mem_map.mpr ⟨j, List.mem_range.mpr hjlt, rfl⟩⟩
    obtain ⟨L1, L2, hsplit⟩ := List.append_of_mem hmem
    have hk1 : ((min i j, max i j) : Nat × Nat) ∈
        (walkPairStep geo stopsGdf
          (List.foldl (walkPairStep geo stopsGdf) (g0, []) L1) (i, j)).2 :=
      walkPairStep_key_mem geo stopsGdf _ i j si sj hij hi hj hd0 hd1
    have hk2 : ((min i j, max i j) : Nat × Nat) ∈
        (List.foldl (walkPairStep geo stopsGdf)
          (walkPairStep geo stopsGdf
            (List.foldl (walkPairStep geo stopsGdf) (g0, []) L1) (i, j)) L2).2 :=
      foldl_preserve (fun st => ((min i j, max i j) : Nat × Nat) ∈ st.2) _
        (fun a b ha => walkPairStep_proc_mono geo stopsGdf a b _ ha) L2 _ hk1
    have hkfin : ((min i j, max i j) : Nat × Nat) ∈
        (((List.range stopsGdf.length).flatMap
          (fun i2 => (List.range stopsGdf.length).map (fun j2 => (i2, j2)))).foldl
          (walkPairStep geo stopsGdf) (g0, [])).2 := by
      rw [hsplit, List.foldl_append, List.foldl_cons]
      exact hk2
    obtain ⟨i2, j2, si2, sj2, hk2eq, hij2, hi2, hj2, hd02, hd12, hdA, hdB⟩ :=
      hP2 _ hkfin
    have hids := hid_of_i2 i2 j2 si2 sj2 hk2eq hi2 hj2
    have hdone : dirDone geo g0 (addWalkingEdges geo stopsGdf g0) si sj ∧
        dirDone geo g0 (addWalkingEdges geo stopsGdf g0) sj si := by
      rw [hgf]
      rcases hids with ⟨e1, e2⟩ | ⟨e1, e2⟩
      · rw [e1, e2] at hdA hdB
        exact ⟨hdA, hdB⟩
      · rw [e1, e2] at hdA hdB
        exact ⟨hdB, hdA⟩
    obtain ⟨hdone1, hdone2⟩ := hdone
    constructor
    · intro hnone
      unfold dirDone at hdone1
      rw [hnone] at hdone1
      exact hdone1
    · intro hnone
      unfold dirDone at hdone2
      rw [hnone] at hdone2
      obtain ⟨ed, h1, h2, h3⟩ := hdone2
      exact ⟨ed, h1, h2, h3.trans (hsym _ _)⟩
  · intro u v ed h
    rw [hgf]
    exact hP1 u v ed h
  · intro hgt
    have hkeyout : ((min i j, max i j) : Nat × Nat) ∉
        (((List.range stopsGdf.length).flatMap
          (fun i2 => (List.range stopsGdf.length).map (fun j2 => (i2, j2)))).foldl
          (walkPairStep geo stopsGdf) (g0, [])).2 := by
      intro hkin
      obtain ⟨i2, j2, si2, sj2, hk2eq, hij2, hi2, hj2, hd02, hd12, _, _⟩ :=
        hP2 _ hkin
      rcases hid_of_i2 i2 j2 si2 sj2 hk2eq hi2 hj2 with ⟨e1, e2⟩ | ⟨e1, e2⟩
      · rw [e1, e2] at hd12
        exact absurd hd12 (not_le.mpr hgt)
      · rw [e1, e2] at hd12
        rw [hsym (sj.x, sj.y) (si.x, si.y)] at hd12
        exact absurd hd12 (not_le.mpr hgt)
    constructor
    · rw [hgf]
      exact hP3 i j si sj hij hi hj hkeyout
    · rw [hgf]
      apply hP3 j i sj si (fun h => hij h.symm) hj hi
      rwa [Nat.min_comm j i, Nat.max_comm j i]

/-- Witness for C2: two stops exactly at the threshold distance (boundary
inclusive) receive a WALK edge of that weight in the empty graph. -/
theorem walking_edges_within_threshold_witness :
    (0 < walkThresholdDeg ∧ walkThresholdDeg ≤ walkThresholdDeg) ∧
    ∃ ed, (addWalkingEdges geoB stopsB Graph.empty).lookupEdge 1 2 = some ed ∧
      ed.routes = ["WALK"] ∧ ed.weight = walkThresholdDeg :=
  ⟨⟨by decide, le_refl _⟩,
   ((walking_edges_within_threshold geoB stopsB Graph.empty 0 1 sA sB
      (by decide) (fun _ _ => rfl) (by decide) rfl rfl).1
      ⟨by decide, le_refl _⟩).1 rfl⟩

-- ### Dictionary semantics of route_to_stops (C10)

theorem rtsGet_map_replace_other (k : String) (v : List Nat) (k2 : String)
    (h : ¬ k = k2) :
    ∀ m : RTS, rtsGet (m.map (fun p => if p.1 = k then (k, v) else p)) k2 =
      rtsGet m k2
  | [] => rfl
  | (k0, v0) :: t => by
    by_cases hk : k0 = k
    · have hhead : (if ((k0, v0) : String × List Nat).1 = k then (k, v) else (k0, v0))
          = (k, v) := if_pos hk
      unfold rtsGet
      rw [List.map_cons, hhead, List.find?_cons, List.find?_cons]
      have h1 : (decide (((k, v) : String × List Nat).1 = k2)) = false := by
        simpa using h
      have h2 : (decide (((k0, v0) : String × List Nat).1 = k2)) = false := by
        simpa using (show ¬ k0 = k2 from fun hc => h (hk.symm.trans hc))
      rw [h1, h2]
      exact rtsGet_map_replace_other k v k2 h t
    · have hhead : (if ((k0, v0) : String × List Nat).1 = k then (k, v) else (k0, v0))
          = (k0, v0) := if_neg hk
      unfold rtsGet
      rw [List.map_cons, hhead, List.find?_cons, List.find?_cons]
      rcases hd : (decide (((k0, v0) : String × List Nat).1 = k2)) with _ | _
      · exact rtsGet_map_replace_other k v k2 h t
      · rfl

theorem rtsGet_map_replace_self (k : String) (v : List Nat) :
    ∀ m : RTS, m.any (fun p => decide (p.1 = k)) = true →
      rtsGet (m.map (fun p => if p.1 = k then (k, v) else p)) k = some v
  | [], h => by simp at h
  | (k0, v0) :: t, h => by
    by_cases hk : k0 = k
    · have hhead : (if ((k0, v0) : String × List Nat).1 = k then (k, v) else (k0, v0))
          = (k, v) := if_pos hk
      unfold rtsGet
      rw [List.map_cons, hhead, List.find?_cons]
      have h1 : (decide (((k, v) : String × List Nat).1 = k)) = true := by simp
      rw [h1]
      rfl
    · have ht : t.any (fun p => decide (p.1 = k)) = true := by
        simpa [List.any_cons, hk] using h
      have hhead : (if ((k0, v0) : String × List Nat).1 = k then (k, v) else (k0, v0))
          = (k0, v0) := if_neg hk
      unfold rtsGet
      rw [List.map_cons, hhead, List.find?_cons]
      have h1 : (decide (((k0, v0) : String × List Nat).1 = k)) = false := by
        simpa using hk
      rw [h1]
      exact rtsGet_map_replace_self k v t ht

theorem rtsGet_rtsSet (m : RTS) (k : String) (v : List Nat) (k2 : String) :
    rtsGet (rtsSet m k v) k2 = if k = k2 then some v else rtsGet m k2 := by
  unfold rtsSet
  by_cases hany : m.any (fun p => decide (p.1 = k)) = true
  · rw [if_pos hany]
    by_cases hk : k = k2
    · subst hk
      rw [if_pos rfl]
      exact rtsGet_map_replace_self k v m hany
    · rw [if_neg hk]
      exact rtsGet_map_replace_other k v k2 hk m
  · rw [if_neg hany]
    unfold rtsGet
    rw [List.find?_append]
    by_cases hk : k = k2
    · subst hk
      rw [if_pos rfl]
      have hnone : m.find? (fun p => decide (p.1 = k)) = none := by
        rw [List.find?_eq_none]
        intro x hx hpx
        apply hany
        rw [List.any_eq_true]
        exact ⟨x, hx, hpx⟩
      rw [hnone]
      simp [List.find?_cons]
    · rw [if_neg hk]
      rcases hf : m.find? (fun p => decide (p.1 = k2)) with _ | p
      · have h1 : (decide ((((k, v)) : String × List Nat).1 = k2)) = false := by
          simpa using hk
        rw [hf]
        simp [List.find?_cons, h1]
      · rw [hf]
        simp

theorem getLast?_cons_or {α : Type} (a : α) (l : List α) :
    (a :: l).getLast? = l.getLast?.or (some a) := by
  induction l generalizing a with
  | nil => rfl
  | cons b t ih =>
    rw [List.getLast?_cons_cons, ih b]
    rcases h : t.getLast? with _ | x
    · rfl
    · rfl

theorem processRoute_rts (geo : GeoOracle) (stopsGdf : List Stop)
    (st : Graph × RTS) (r : RouteFeature) :
    (processRoute geo stopsGdf st r).2 =
      (match processedStopIds geo stopsGdf r with
       | some ids => rtsSet st.2 (resolveRouteName r) ids
       | none => st.2) := by
  unfold processRoute processedStopIds
  rcases routeSortedStops geo stopsGdf r with _ | ⟨line, sorted⟩
  · rfl
  · rfl

theorem fold_rts_last (geo : GeoOracle) (stopsGdf : List Stop) (name : String) :
    ∀ (routes : List RouteFeature) (st : Graph × RTS),
      rtsGet (routes.foldl (processRoute geo stopsGdf) st).2 name =
        ((routes.filterMap (fun r =>
          if resolveRouteName r = name then processedStopIds geo stopsGdf r
          else none)).getLast?).or (rtsGet st.2 name)
  | [], st => by simp
  | r :: t, st => by
    rw [List.foldl_cons, fold_rts_last geo stopsGdf name t _, List.filterMap_cons]
    by_cases hname : resolveRouteName r = name
    · rcases hids : processedStopIds geo stopsGdf r with _ | ids
      · have hrts : (processRoute geo stopsGdf st r).2 = st.2 := by
          rw [processRoute_rts, hids]
        rw [hrts]
        simp only [if_pos hname, hids]
      · have hrts : (processRoute geo stopsGdf st r).2 =
            rtsSet st.2 (resolveRouteName r) ids := by
          rw [processRoute_rts, hids]
        rw [hrts, rtsGet_rtsSet, if_pos hname]
        simp only [if_pos hname, hids, getLast?_cons_or]
        rcases (t.filterMap (fun r => if resolveRouteName r = name
            then processedStopIds geo stopsGdf r else none)).getLast? with _ | x
        · rfl
        · rfl
    · rcases hids : processedStopIds geo stopsGdf r with _ | ids
      · have hrts : (processRoute geo stopsGdf st r).2 = st.2 := by
          rw [processRoute_rts, hids]
        rw [hrts]
        simp only [if_neg hname]
      · have hrts : (processRoute geo stopsGdf st r).2 =
            rtsSet st.2 (resolveRouteName r) ids := by
          rw [processRoute_rts, hids]
        rw [hrts, rtsGet_rtsSet, if_neg hname]
        simp only [if_neg hname]

theorem hasEdge_addNode (g : Graph) (u : Nat) (attrs : NodeAttrs) (w x : Nat) :
    (g.addNode u attrs).hasEdge w x = g.hasEdge w x := by
  unfold Graph.hasEdge
  rw [lookupEdge_addNode]

theorem hasEdge_appendRouteLabel (g : Graph) (a b : Nat) (rn : String) (u v : Nat) :
    (g.appendRouteLabel a b rn).hasEdge u v = g.hasEdge u v := by
  unfold Graph.hasEdge
  rw [lookupEdge_appendRouteLabel]
  by_cases hk : ((a, b) : Nat × Nat) = (u, v)
  · rw [if_pos hk]
    injection hk with h1 h2
    subst h1
    subst h2
    rcases g.lookupEdge a b <;> rfl
  · rw [if_neg hk]

theorem hasEdge_mono_addEdgeData (g : Graph) (a b : Nat) (ed : EdgeData) (u v : Nat)
    (h : g.hasEdge u v = true) : (g.addEdgeData a b ed).hasEdge u v = true := by
  unfold Graph.hasEdge at h ⊢
  rw [lookupEdge_addEdgeData]
  split_ifs
  · rfl
  · exact h

theorem hasEdge_mono_addHop (geo : GeoOracle) (line : Line) (rn : String)
    (g : Graph) (ab : (Stop × ℚ) × (Stop × ℚ)) (u v : Nat)
    (h : g.hasEdge u v = true) : (addHop geo line rn g ab).hasEdge u v = true := by
  simp only [addHop]
  rw [hasEdge_addNode, hasEdge_addNode]
  split_ifs with he
  · rw [hasEdge_appendRouteLabel]
    exact h
  · exact hasEdge_mono_addEdgeData _ _ _ _ _ _ h

theorem hasEdge_mono_processRoute (geo : GeoOracle) (stopsGdf : List Stop)
    (st : Graph × RTS) (r : RouteFeature) (u v : Nat)
    (h : st.1.hasEdge u v = true) :
    (processRoute geo stopsGdf st r).1.hasEdge u v = true := by
  unfold processRoute
  rcases routeSortedStops geo stopsGdf r with _ | ⟨line, sorted⟩
  · exact h
  · simp only
    unfold addRouteEdges
    exact foldl_preserve (fun g2 => g2.hasEdge u v = true) _
      (fun a b ha => hasEdge_mono_addHop geo line _ a b u v ha) _ _ h

theorem hasEdge_mono_addWalkingEdges (geo : GeoOracle) (stopsGdf : List Stop)
    (g : Graph) (u v : Nat) (h : g.hasEdge u v = true) :
    (addWalkingEdges geo stopsGdf g).hasEdge u v = true := by
  unfold Graph.hasEdge at h
  rcases hl : g.lookupEdge u v with _ | ed
  · rw [hl] at h
    exact absurd h (by simp)
  · have hgf : addWalkingEdges geo stopsGdf g =
        (((List.range stopsGdf.length).flatMap
          (fun i2 => (List.range stopsGdf.length).map (fun j2 => (i2, j2)))).foldl
          (walkPairStep geo stopsGdf) (g, [])).1 := rfl
    have hfin : (addWalkingEdges geo stopsGdf g).lookupEdge u v = some ed := by
      rw [hgf]
      exact foldl_preserve (fun st => st.1.lookupEdge u v = some ed) _
        (fun a b ha => walkPairStep_preserves geo stopsGdf a b u v ed ha) _
        (g, ([] : List (Nat × Nat))) hl
    unfold Graph.hasEdge
    rw [hfin]
    rfl

/-- Claim C10: the per-route ordered stop list is recorded in a dict
keyed by resolved route name (line 130), so the recorded list for a name
is the one of the last processed feature resolving to that name
(later features overwrite earlier ones); meanwhile the edges created
while processing any prefix of the route list are still present in the
final built graph (both features' edges remain). -/
theorem route_to_stops_last_writer_wins :
    (∀ (geo : GeoOracle) (inp : EngineInput) (prev : EngineState) (name : String),
      rtsGet (buildGraph geo inp prev).routeToStops name =
        (inp.routes.filterMap (fun r =>
          if resolveRouteName r = name then processedStopIds geo inp.stops r
          else none)).getLast?)
    ∧ (∀ (geo : GeoOracle) (inp : EngineInput) (prev : EngineState) (k u v : Nat),
        ((inp.routes.take k).foldl (processRoute geo inp.stops)
          (Graph.empty, [])).1.hasEdge u v = true →
        (buildGraph geo inp prev).graph.hasEdge u v = true) := by
  constructor
  · intro geo inp prev name
    have hb : (buildGraph geo inp prev).routeToStops =
        (inp.routes.foldl (processRoute geo inp.stops) (Graph.empty, [])).2 := rfl
    rw [hb, fold_rts_last geo inp.stops name inp.routes (Graph.empty, [])]
    have hinit : rtsGet ((Graph.empty, []) : Graph × RTS).2 name = none := rfl
    rw [hinit]
    rcases (inp.routes.filterMap (fun r => if resolveRouteName r = name
        then processedStopIds geo inp.stops r else none)).getLast? with _ | x
    · rfl
    · rfl
  · intro geo inp prev k u v h
    have hb : (buildGraph geo inp prev).graph =
        addWalkingEdges geo inp.stops
          (inp.routes.foldl (processRoute geo inp.stops) (Graph.empty, [])).1 := rfl
    rw [hb]
    apply hasEdge_mono_addWalkingEdges
    have hdec : inp.routes.foldl (processRoute geo inp.stops) (Graph.empty, []) =
        (inp.routes.drop k).foldl (processRoute geo inp.stops)
          ((inp.routes.take k).foldl (processRoute geo inp.stops)
            (Graph.empty, [])) := by
      conv_lhs => rw [← List.take_append_drop k inp.routes]
      rw [List.foldl_append]
    rw [hdec]
    exact foldl_preserve (fun st => st.1.hasEdge u v = true) _
      (fun a b ha => hasEdge_mono_processRoute geo inp.stops a b u v ha) _ _ h

/-- Witness for C10 part 2: processing only the first of two same-name
route features already creates the edge `1 → 2`, and it persists in the
fully built graph. -/
theorem route_to_stops_last_writer_wins_witness :
    ((inpC10.routes.take 1).foldl (processRoute geoC10 inpC10.stops)
      (Graph.empty, [])).1.hasEdge 1 2 = true ∧
    (buildGraph geoC10 inpC10 ⟨Graph.empty, [], false⟩).graph.hasEdge 1 2 = true :=
  ⟨by decide,
   route_to_stops_last_writer_wins.2 geoC10 inpC10 ⟨Graph.empty, [], false⟩ 1 1 2
     (by decide)⟩

-- ### Segment records and geometry (C7)

theorem flatMap_congr_mem {α β : Type} (f g : α → List β) :
    ∀ l : List α, (∀ a ∈ l, f a = g a) → l.flatMap f = l.flatMap g
  | [], _ => rfl
  | a :: t, h => by
    rw [List.flatMap_cons, List.flatMap_cons, h a (List.mem_cons_self _ _),
      flatMap_congr_mem f g t (fun b hb => h b (List.mem_cons_of_mem _ hb))]

/-- Counterexample to C7 as stated: two graphs that differ only in one
edge's geometry yield, for the same successful query, the very same
emitted segment records but different polylines — so no field of the
emitted segment records equals (or determines) the concatenation of the
segment's constituent edge geometries; the source emits segments without
any geometry field (lines 357-367, 382-392) and only a path-level
polyline (lines 395-412). -/
theorem segments_lack_geometry_cex :
    ∃ segs pa pb,
      findShortestPath g7a [("R1", [1, 2, 3])] "aa" "cc" = FSPResult.ok segs pa ∧
      findShortestPath g7b [("R1", [1, 2, 3])] "aa" "cc" = FSPResult.ok segs pb ∧
      pa ≠ pb := by
  refine ⟨summarize g7a [1, 2, 3], buildPolyline g7a [1, 2, 3],
    buildPolyline g7b [1, 2, 3], ?_, ?_, ?_⟩
  · decide
  · decide
  · decide

/-- Claim C7 (amended): the emitted segment records carry no geometry
field; instead the successful result carries a single path-level polyline
equal to the concatenation of the traversed edges' LineString geometry
coordinates, flipped to `[lat, lon]` order. -/
theorem path_polyline_concatenation (g : Graph) (pids : List Nat)
    (hline : ∀ p ∈ pids.zip pids.tail, ∃ ed coords,
      g.lookupEdge p.1 p.2 = some ed ∧ ed.geom = EdgeGeom.line coords) :
    ∃ segs, renderResult g pids = FSPResult.ok segs (specConcatGeometry g pids) := by
  refine ⟨summarize g pids, ?_⟩
  unfold renderResult buildPolyline specConcatGeometry
  congr 1
  apply flatMap_congr_mem
  intro p hp
  obtain ⟨ed, coords, hed, hgeom⟩ := hline p hp
  unfold polyStep
  simp [hed, hgeom]

/-- Witness for the amended C7 on the concrete chain `g7a`. -/
theorem path_polyline_concatenation_witness :
    ∃ segs, renderResult g7a [1, 2, 3] =
      FSPResult.ok segs (specConcatGeometry g7a [1, 2, 3]) :=
  path_polyline_concatenation g7a [1, 2, 3]
    (by
      intro p hp
      rcases List.mem_cons.mp hp with h | hp2
      · subst h
        exact ⟨⟨1, ["R1"], EdgeGeom.line [(0, 0), (1, 0)]⟩, [(0, 0), (1, 0)],
          by decide, by decide⟩
      · rcases List.mem_cons.mp hp2 with h | hp3
        · subst h
          exact ⟨⟨1, ["R1"], EdgeGeom.line [(1, 0), (2, 0)]⟩, [(1, 0), (2, 0)],
            by decide, by decide⟩
        · exact absurd hp3 (List.not_mem_nil p))
